import Mathlib

/-!
Shallow embedding of the typewiz runtime type-profile pipeline, and proofs
about it.

Embedded sources:
* `src/lib/sqlite-collector.js` — the SQLite collector (`SQLiteTypeCollector`):
  value typing, literal serialisation, hashing, enum-string filter, object
  shape analysis, and the batch ingest (`processTypeData`).  The SQLite store
  is modelled as lists of rows keyed by the natural UNIQUE keys of the schema
  (AUTOINCREMENT ids are in bijection with the natural keys, so rows are keyed
  by `(filename, offset)` directly).  Timestamps (`first_seen`/`last_seen`)
  and the `source_location` column are omitted: no statement below concerns
  them.
* `src/typewiz-enhanced/lib/ast-instrumenter.js` — the AST instrumenter:
  parameter extraction and the instrumentation records emitted per construct.
  Source positions (`lineNumber`/`columnNumber` metadata) are omitted from
  the record model: no statement below concerns them.  The Babel parser and
  code generator are external dependencies and appear as function parameters.
* `src/lib/source-map-utils.js` (the `LLMQueryInterface` part) — the
  annotation-candidates query, executed over the row model of the store.
* `src/lib/sqlite-collector.js` (`getFunctionCalls`) — the paginated
  function-calls query.

`crypto.createHash('md5')` is a Node platform primitive, not repository code;
it appears as an explicit `md5hex : String → String` parameter, so that the
repository-owned part of the hashing (`digest('hex').slice(0, 8)`) is what the
definitions capture.
-/

/-! ### JavaScript runtime values

A JS value as it can reach `processTypeData` after JSON transport.  `vDate`
carries the ISO string (`toISOString`), `vRegExp` its source text, `vFun` the
function's `name`. -/

inductive JsValue where
  | vNull
  | vUndefined
  | vBool (b : Bool)
  | vNum (n : Int)
  | vStr (s : String)
  | vArr (elems : List JsValue)
  | vObj (fields : List (String × JsValue))
  | vDate (iso : String)
  | vRegExp (src : String)
  | vFun (name : String)

/-- `getValueType` of `sqlite-collector.js`: null/undefined checks, then
`Array.isArray`, `instanceof Date`, `instanceof RegExp`, then `typeof`. -/
def getValueType : JsValue → String
  | .vNull => "null"
  | .vUndefined => "undefined"
  | .vArr _ => "array"
  | .vDate _ => "Date"
  | .vRegExp _ => "RegExp"
  | .vBool _ => "boolean"
  | .vNum _ => "number"
  | .vStr _ => "string"
  | .vFun _ => "function"
  | .vObj _ => "object"

def isNullOrUndefined : JsValue → Bool
  | .vNull => true
  | .vUndefined => true
  | _ => false

/-- One hex digit, lower case, as produced by JS `\uXXXX` escapes. -/
def hexDigit (n : Nat) : Char :=
  if n < 10 then Char.ofNat (48 + n) else Char.ofNat (87 + n % 16)

/-- Code-point lexicographic comparison of character lists: the default
comparator of JS `Array.prototype.sort` (UTF-16 code-unit order, which agrees
with code-point order on the characters that occur here). -/
def charListLe : List Char → List Char → Bool
  | [], _ => true
  | _ :: _, [] => false
  | a :: as, b :: bs =>
    if a < b then true
    else if b < a then false
    else charListLe as bs

def strLe (a b : String) : Bool := charListLe a.toList b.toList

def jsOrderedInsert (a : String) : List String → List String
  | [] => [a]
  | b :: bs => if strLe a b then a :: b :: bs else b :: jsOrderedInsert a bs

/-- Model of JS `Array.prototype.sort()` with the default (lexicographic)
comparator, as a stable insertion sort. -/
def jsSortStrings : List String → List String
  | [] => []
  | a :: as => jsOrderedInsert a (jsSortStrings as)

/-- The character list of `s.take n` (JS `slice(0, n)` counts UTF-16 units;
the model counts characters). -/
def strTake (s : String) (n : Nat) : String := String.mk (s.toList.take n)

/-- JS `String.prototype.split(sep)` for a single-character separator. -/
def splitOnCharList (sep : Char) : List Char → List (List Char)
  | [] => [[]]
  | c :: cs =>
    let rest := splitOnCharList sep cs
    if c = sep then [] :: rest
    else
      match rest with
      | [] => [[c]]
      | g :: gs => (c :: g) :: gs

/-- JSON string-character escaping as performed by `JSON.stringify`. -/
def escapeJsonChar (c : Char) : String :=
  if c = '"' then "\\\""
  else if c = '\\' then "\\\\"
  else if c = '\x08' then "\\b"
  else if c = '\x09' then "\\t"
  else if c = '\x0a' then "\\n"
  else if c = '\x0c' then "\\f"
  else if c = '\x0d' then "\\r"
  else if c.toNat < 32 then
    "\\u00" ++ String.mk [hexDigit (c.toNat / 16), hexDigit (c.toNat % 16)]
  else String.singleton c

def jsonEscapeString (s : String) : String :=
  "\"" ++ String.join (s.toList.map escapeJsonChar) ++ "\""

mutual
/-- `JSON.stringify` on a `JsValue`.  `none` models the JS behaviour of
returning `undefined` for bare `undefined`/function inputs; inside arrays such
members become `null`, inside objects the property is dropped.  A `Date`
serialises through `toJSON` to its ISO string; a `RegExp` has no enumerable
properties and serialises to `\x7b\x7d`. -/
def jsonStringifyVal : JsValue → Option String
  | .vNull => some "null"
  | .vUndefined => none
  | .vBool b => some (if b then "true" else "false")
  | .vNum n => some (toString n)
  | .vStr s => some (jsonEscapeString s)
  | .vDate iso => some (jsonEscapeString iso)
  | .vRegExp _ => some "\x7b\x7d"
  | .vFun _ => none
  | .vArr elems => some ("[" ++ String.intercalate "," (jsonStringifyArr elems) ++ "]")
  | .vObj fields => some ("\x7b" ++ String.intercalate "," (jsonStringifyObj fields) ++ "\x7d")

/-- Array members of `JSON.stringify`: unserialisable members become "null". -/
def jsonStringifyArr : List JsValue → List String
  | [] => []
  | x :: xs => ((jsonStringifyVal x).getD "null") :: jsonStringifyArr xs

/-- Object members of `JSON.stringify`: unserialisable members are dropped. -/
def jsonStringifyObj : List (String × JsValue) → List String
  | [] => []
  | (k, x) :: fs =>
    match jsonStringifyVal x with
    | some sx => (jsonEscapeString k ++ ":" ++ sx) :: jsonStringifyObj fs
    | none => jsonStringifyObj fs
end

/-- `serializeLiteralValue` of `sqlite-collector.js`.  The source switches on
`valueType`, which at both call sites equals `getValueType value`, so the
branches are keyed here on the value's constructor; the switch's `default`
branch covers host types that have no `JsValue` constructor.  Objects are
capped at 1000 characters, arrays at 10 elements. -/
def serializeLiteralValue (value : JsValue) (valueType : String) : String :=
  match value with
  | .vStr _ | .vNum _ | .vBool _ | .vNull | .vUndefined =>
    (jsonStringifyVal value).getD "undefined"
  | .vObj _ => strTake ((jsonStringifyVal value).getD "undefined") 1000
  | .vArr elems => (jsonStringifyVal (.vArr (elems.take 10))).getD "undefined"
  | .vDate iso =>
    (jsonStringifyVal (.vObj [("_type", .vStr "Date"), ("value", .vStr iso)])).getD "undefined"
  | .vRegExp src =>
    (jsonStringifyVal (.vObj [("_type", .vStr "RegExp"), ("value", .vStr src)])).getD "undefined"
  | .vFun name =>
    (jsonStringifyVal (.vObj [("_type", .vStr "Function"),
      ("name", .vStr (if name = "" then "anonymous" else name))])).getD "undefined"

/-- `hashValue`: `crypto.createHash('md5').update(v).digest('hex').slice(0, 8)`.
The platform MD5 is the parameter `md5hex`; the repository-owned part is the
8-character prefix. -/
def hashValue (md5hex : String → String) (literalValue : String) : String :=
  strTake (md5hex literalValue) 8

/-- Substring test (JS `String.prototype.includes` with a string argument). -/
def strContainsSub (s pat : String) : Bool :=
  (List.range (s.toList.length + 1)).any fun i => pat.toList.isPrefixOf (s.toList.drop i)

/-- `isEnumCandidateString` of `sqlite-collector.js`.  The `/^\d+$/` test is
evaluated here under the knowledge that `value` is nonempty (the first guard
has already excluded the empty string). -/
def isEnumCandidateString (value : String) : Bool :=
  if value.length = 0 ∨ value.length > 50 then false
  else if value.toList.contains '/' || value.toList.contains '\\' then false
  else if strContainsSub value "http" then false
  else if value.toList.all Char.isDigit then false
  else if value.toList.contains ' ' && decide ((splitOnCharList ' ' value.toList).length > 3) then false
  else true

/-- First-match association lookup, the model of `obj[key]`. -/
def lookupField (fields : List (String × JsValue)) (k : String) : Option JsValue :=
  match fields with
  | [] => none
  | (k', v) :: fs => if k' = k then some v else lookupField fs k

structure ObjectShape where
  signature : String
  propertyNames : String
  propertyTypes : String
deriving DecidableEq, Repr

/-- `analyzeObjectShape` of `sqlite-collector.js`: non-array objects with 1–20
own enumerable keys get a canonical signature: keys sorted (JS default sort is
lexicographic), each annotated `key:type`, comma-joined.  `propertyTypes` is
`JSON.stringify` of the type map built in sorted key order. -/
def analyzeObjectShape (value : JsValue) : Option ObjectShape :=
  match value with
  | .vObj fields =>
    let keys := fields.map Prod.fst
    if keys.length = 0 ∨ keys.length > 20 then none
    else
      let sortedKeys := jsSortStrings keys
      let typeOfKey := fun k => getValueType ((lookupField fields k).getD .vUndefined)
      some
        { signature := String.intercalate "," (sortedKeys.map fun k => k ++ ":" ++ typeOfKey k)
          propertyNames := String.intercalate "," sortedKeys
          propertyTypes :=
            (jsonStringifyVal (.vObj (sortedKeys.map fun k => (k, .vStr (typeOfKey k))))).getD "undefined" }
  | _ => none

/-! ### The SQLite store

Rows keyed by the natural UNIQUE keys of the schema in `initializeSchema`. -/

structure EntityRow where
  filename : String
  offset : Int
  entityName : Option String := none
  entityType : String := "unknown"
  lineNumber : Option Int := none
  columnNumber : Option Int := none
  observationCount : Nat := 1
deriving DecidableEq, Repr

structure VORow where
  entityId : String × Int
  valueType : String
  literalValue : String
  valueHash : String
  context : String
  observationCount : Nat := 1
deriving DecidableEq, Repr

structure SLRow where
  entityId : String × Int
  stringValue : String
  context : String
  observationCount : Nat := 1
deriving DecidableEq, Repr

structure ShapeRow where
  entityId : String × Int
  shapeSignature : String
  propertyNames : String
  propertyTypes : String
  observationCount : Nat := 1
deriving DecidableEq, Repr

structure HofRow where
  callbackEntityId : String × Int
  calleeName : String
  calleeArgIndex : Int
  sourceFilename : String
  observationCount : Nat := 1
deriving DecidableEq, Repr

structure Store where
  entities : List EntityRow := []
  valueObservations : List VORow := []
  stringLiterals : List SLRow := []
  objectShapes : List ShapeRow := []
  hofRelationships : List HofRow := []
deriving DecidableEq, Repr

def emptyStore : Store := {}

def EntityRow.key (r : EntityRow) : String × Int := (r.filename, r.offset)

def VORow.key (r : VORow) : (String × Int) × String × String :=
  (r.entityId, r.valueHash, r.context)

def SLRow.key (r : SLRow) : (String × Int) × String × String :=
  (r.entityId, r.stringValue, r.context)

def ShapeRow.key (r : ShapeRow) : (String × Int) × String := (r.entityId, r.shapeSignature)

def HofRow.key (r : HofRow) : (String × Int) × String × Int :=
  (r.callbackEntityId, r.calleeName, r.calleeArgIndex)

/-- The `upsertEntity` prepared statement: `INSERT ... observation_count 1` /
`ON CONFLICT(filename, offset_position) DO UPDATE observation_count + 1`.
The UNIQUE constraint guarantees at most one matching row, so bumping the
first match is exact. -/
def upsertEntityList (filename : String) (offset : Int) : List EntityRow → List EntityRow
  | [] => [{ filename := filename, offset := offset }]
  | r :: rs =>
    if r.key = (filename, offset) then { r with observationCount := r.observationCount + 1 } :: rs
    else r :: upsertEntityList filename offset rs

def upsertEntity (s : Store) (filename : String) (offset : Int) : Store :=
  { s with entities := upsertEntityList filename offset s.entities }

/-- The `upsertValueObservation` prepared statement:
`ON CONFLICT(entity_id, value_hash, context) DO UPDATE observation_count + 1`.
On conflict only the counter moves; `value_type`/`literal_value` keep the
values of the first insert. -/
def upsertValueObservationList (entityId : String × Int)
    (valueType literalValue valueHash context : String) : List VORow → List VORow
  | [] => [{ entityId := entityId, valueType := valueType, literalValue := literalValue,
             valueHash := valueHash, context := context }]
  | r :: rs =>
    if r.key = (entityId, valueHash, context) then
      { r with observationCount := r.observationCount + 1 } :: rs
    else r :: upsertValueObservationList entityId valueType literalValue valueHash context rs

def upsertValueObservation (s : Store) (entityId : String × Int)
    (valueType literalValue valueHash context : String) : Store :=
  { s with valueObservations :=
      upsertValueObservationList entityId valueType literalValue valueHash context s.valueObservations }

/-- `upsertStringLiteral`: `ON CONFLICT(entity_id, string_value, context)`. -/
def upsertStringLiteralList (entityId : String × Int) (stringValue context : String) :
    List SLRow → List SLRow
  | [] => [{ entityId := entityId, stringValue := stringValue, context := context }]
  | r :: rs =>
    if r.key = (entityId, stringValue, context) then
      { r with observationCount := r.observationCount + 1 } :: rs
    else r :: upsertStringLiteralList entityId stringValue context rs

def upsertStringLiteral (s : Store) (entityId : String × Int) (stringValue context : String) :
    Store :=
  { s with stringLiterals := upsertStringLiteralList entityId stringValue context s.stringLiterals }

/-- `upsertObjectShape`: `ON CONFLICT(entity_id, shape_signature)`. -/
def upsertObjectShapeList (entityId : String × Int)
    (signature propertyNames propertyTypes : String) : List ShapeRow → List ShapeRow
  | [] => [{ entityId := entityId, shapeSignature := signature,
             propertyNames := propertyNames, propertyTypes := propertyTypes }]
  | r :: rs =>
    if r.key = (entityId, signature) then
      { r with observationCount := r.observationCount + 1 } :: rs
    else r :: upsertObjectShapeList entityId signature propertyNames propertyTypes rs

def upsertObjectShape (s : Store) (entityId : String × Int)
    (signature propertyNames propertyTypes : String) : Store :=
  { s with objectShapes :=
      upsertObjectShapeList entityId signature propertyNames propertyTypes s.objectShapes }

/-- `upsertHofRelationship`:
`ON CONFLICT(callback_entity_id, callee_name, callee_arg_index)`. -/
def upsertHofRelationshipList (entityId : String × Int) (calleeName : String)
    (calleeArgIndex : Int) (sourceFilename : String) : List HofRow → List HofRow
  | [] => [{ callbackEntityId := entityId, calleeName := calleeName,
             calleeArgIndex := calleeArgIndex, sourceFilename := sourceFilename }]
  | r :: rs =>
    if r.key = (entityId, calleeName, calleeArgIndex) then
      { r with observationCount := r.observationCount + 1 } :: rs
    else r :: upsertHofRelationshipList entityId calleeName calleeArgIndex sourceFilename rs

def upsertHofRelationship (s : Store) (entityId : String × Int) (calleeName : String)
    (calleeArgIndex : Int) (sourceFilename : String) : Store :=
  { s with hofRelationships :=
      upsertHofRelationshipList entityId calleeName calleeArgIndex sourceFilename s.hofRelationships }

/-- The `updateEntity` statement built inside `processTypeData`:
`entity_name = COALESCE(?, entity_name)`, `line_number = COALESCE(?, line_number)`,
`column_number = COALESCE(?, column_number)`, but `entity_type = ?`
unconditionally. -/
def updateEntity (s : Store) (functionName : Option String) (lineNumber columnNumber : Option Int)
    (context : String) (k : String × Int) : Store :=
  { s with entities := s.entities.map fun r =>
      if r.key = k then
        { r with
          entityName := match functionName with | some f => some f | none => r.entityName
          lineNumber := match lineNumber with | some l => some l | none => r.lineNumber
          columnNumber := match columnNumber with | some c => some c | none => r.columnNumber
          entityType := context }
      else r }

/-! ### Batch ingest -/

/-- Metadata of one wire record, the keys `processTypeData` reads. -/
structure TwizMetadata where
  functionName : Option String := none
  lineNumber : Option Int := none
  columnNumber : Option Int := none
  context : Option String := none
  calleeName : Option String := none
  calleeArgIndex : Option Int := none
deriving Repr

/-- One record of an ingest batch.  `filename = none` models a missing
filename (the record is skipped with a warning); `types = none` models a
record whose third slot is not iterable, so that `for ... of types` throws —
the throw is caught by the per-record `try`/`catch` and the record's partial
effects are kept. -/
structure IngestEntry where
  filename : Option String := none
  offset : Int := 0
  types : Option (List (JsValue × Option (Int × Int))) := none
  metadata : Option TwizMetadata := none

/-- JS `x || null` on an optional string: the empty string is falsy. -/
def jsTruthyStr : Option String → Option String
  | some s => if s = "" then none else some s
  | none => none

/-- JS `x || null` on an optional number: `0` is falsy. -/
def jsTruthyInt : Option Int → Option Int
  | some n => if n = 0 then none else some n
  | none => none

/-- `processLiteralValue` of `sqlite-collector.js` (the `sourceLocation`
argument is omitted, see the header).  Upserts the value observation keyed by
`(entity, value_hash, context)`, then conditionally the string-literal and
object-shape rows. -/
def processLiteralValue (md5hex : String → String) (s : Store) (entityId : String × Int)
    (value : JsValue) (functionName : Option String) (context : String) : Store :=
  let valueType := getValueType value
  let literalValue := serializeLiteralValue value valueType
  let valueHash := hashValue md5hex literalValue
  let enhancedContext :=
    match functionName with
    | some fn => context ++ "_in_" ++ fn
    | none => context
  let s := upsertValueObservation s entityId valueType literalValue valueHash enhancedContext
  let s :=
    match value with
    | .vStr str => if isEnumCandidateString str then upsertStringLiteral s entityId str "parameter" else s
    | _ => s
  match analyzeObjectShape value with
  | some shape => upsertObjectShape s entityId shape.signature shape.propertyNames shape.propertyTypes
  | none => s

/-- The loop body of `processTypeData` for one record, including the
per-record `try`/`catch`: a record with a missing filename is skipped, a
record whose `types` is not iterable keeps its partial effects (entity upsert,
metadata update, HOF upsert) and loses only its value processing. -/
def processTypeDataEntry (md5hex : String → String) (s : Store) (entry : IngestEntry) : Store :=
  match entry.filename with
  | none => s
  | some filename =>
    if filename = "" then s
    else
      let md := entry.metadata
      let functionName := jsTruthyStr (md.bind (·.functionName))
      let lineNumber := jsTruthyInt (md.bind (·.lineNumber))
      let columnNumber := jsTruthyInt (md.bind (·.columnNumber))
      let context := (jsTruthyStr (md.bind (·.context))).getD "unknown"
      let s := upsertEntity s filename entry.offset
      let entityId := (filename, entry.offset)
      let s :=
        if functionName.isSome || lineNumber.isSome then
          updateEntity s functionName lineNumber columnNumber context entityId
        else s
      let s :=
        match md with
        | some m =>
          match jsTruthyStr m.calleeName, m.calleeArgIndex with
          | some cn, some idx => upsertHofRelationship s entityId cn idx filename
          | _, _ => s
        | none => s
      match entry.types with
      | none => s
      | some types =>
        types.foldl
          (fun t rv =>
            if isNullOrUndefined rv.1 then t
            else processLiteralValue md5hex t entityId rv.1 functionName context)
          s

/-- `processTypeData`: the whole batch runs inside one `db.transaction`, but
each record's processing is wrapped in its own `try`/`catch`, so a failing
record is skipped and the rest of the batch still commits. -/
def processTypeData (md5hex : String → String) (entries : List IngestEntry) (s : Store) : Store :=
  entries.foldl (processTypeDataEntry md5hex) s

/-! ### Row counting and key observations -/

abbrev VoKey := (String × Int) × String × String

/-- Total observation count stored at a value-observation key. -/
def voCountList (k : VoKey) : List VORow → Nat
  | [] => 0
  | r :: rs => (if r.key = k then r.observationCount else 0) + voCountList k rs

def Store.voCount (s : Store) (k : VoKey) : Nat := voCountList k s.valueObservations

def Store.voKeys (s : Store) : List VoKey := s.valueObservations.map VORow.key

def entCountList (k : String × Int) : List EntityRow → Nat
  | [] => 0
  | r :: rs => (if r.key = k then r.observationCount else 0) + entCountList k rs

def Store.entCount (s : Store) (k : String × Int) : Nat := entCountList k s.entities

def Store.entLookup (s : Store) (k : String × Int) : Option EntityRow :=
  s.entities.find? fun r => decide (r.key = k)

/-- The enriched context of `processLiteralValue`:
`<context>_in_<functionName>` when a function name is known. -/
def enhancedContextOf (functionName : Option String) (context : String) : String :=
  match functionName with
  | some fn => context ++ "_in_" ++ fn
  | none => context

/-- The value-observation key `processLiteralValue` upserts for one value. -/
def voKeyOf (md5hex : String → String) (entityId : String × Int) (value : JsValue)
    (functionName : Option String) (context : String) : VoKey :=
  (entityId, hashValue md5hex (serializeLiteralValue value (getValueType value)),
   enhancedContextOf functionName context)

/-- The value-observation keys one ingest record upserts, in order:
one per non-null, non-undefined value of its `types` list. -/
def entryVoKeys (md5hex : String → String) (entry : IngestEntry) : List VoKey :=
  match entry.filename with
  | none => []
  | some filename =>
    if filename = "" then []
    else
      match entry.types with
      | none => []
      | some types =>
        let functionName := jsTruthyStr (entry.metadata.bind (·.functionName))
        let context := (jsTruthyStr (entry.metadata.bind (·.context))).getD "unknown"
        types.filterMap fun rv =>
          if isNullOrUndefined rv.1 then none
          else some (voKeyOf md5hex (filename, entry.offset) rv.1 functionName context)

/-- The entity keys one ingest record upserts (one, unless skipped). -/
def entryEntKeys (entry : IngestEntry) : List (String × Int) :=
  match entry.filename with
  | none => []
  | some filename => if filename = "" then [] else [(filename, entry.offset)]

def batchVoKeys (md5hex : String → String) : List IngestEntry → List VoKey
  | [] => []
  | e :: es => entryVoKeys md5hex e ++ batchVoKeys md5hex es

def batchEntKeys : List IngestEntry → List (String × Int)
  | [] => []
  | e :: es => entryEntKeys e ++ batchEntKeys es

/-- N-fold replay of one batch against a fresh store. -/
def ingestCopies (md5hex : String → String) (batch : List IngestEntry) : Nat → Store
  | 0 => emptyStore
  | n + 1 => processTypeData md5hex batch (ingestCopies md5hex batch n)

theorem voCountList_upsert (entityId : String × Int) (vt lv vh ctx : String) (k : VoKey)
    (l : List VORow) :
    voCountList k (upsertValueObservationList entityId vt lv vh ctx l)
      = voCountList k l + (if (entityId, vh, ctx) = k then 1 else 0) := by
  induction l with
  | nil => simp [upsertValueObservationList, voCountList, VORow.key]
  | cons r rs ih =>
    simp only [upsertValueObservationList]
    by_cases h : r.key = (entityId, vh, ctx)
    · rw [if_pos h]
      simp only [VORow.key] at h
      simp only [voCountList, VORow.key, ← h]
      by_cases hk : (r.entityId, r.valueHash, r.context) = k
      · subst hk
        have hrw : ∀ (n m : Nat),
            (if (r.entityId, r.valueHash, r.context) = (r.entityId, r.valueHash, r.context)
             then n else m) = n := fun n m => if_pos rfl
        rw [hrw, hrw, hrw]
        omega
      · simp [hk]
    · rw [if_neg h]
      simp only [voCountList, ih]
      omega

theorem voKeys_upsert (entityId : String × Int) (vt lv vh ctx : String) (l : List VORow) :
    (upsertValueObservationList entityId vt lv vh ctx l).map VORow.key
      = if (entityId, vh, ctx) ∈ l.map VORow.key then l.map VORow.key
        else l.map VORow.key ++ [(entityId, vh, ctx)] := by
  induction l with
  | nil => simp [upsertValueObservationList, VORow.key]
  | cons r rs ih =>
    simp only [upsertValueObservationList]
    by_cases h : r.key = (entityId, vh, ctx)
    · rw [if_pos h]
      have hmem : (entityId, vh, ctx) ∈ List.map VORow.key (r :: rs) := by
        simp [← h]
      rw [if_pos hmem]
      simp [VORow.key]
    · rw [if_neg h]
      simp only [List.map_cons, ih]
      by_cases hm : (entityId, vh, ctx) ∈ List.map VORow.key rs
      · rw [if_pos hm, if_pos (by simp [hm])]
      · rw [if_neg hm, if_neg (by
          simp only [List.mem_cons, hm, or_false]
          exact fun hx => h hx.symm)]
        simp

theorem entCountList_upsert (filename : String) (offset : Int) (k : String × Int)
    (l : List EntityRow) :
    entCountList k (upsertEntityList filename offset l)
      = entCountList k l + (if (filename, offset) = k then 1 else 0) := by
  induction l with
  | nil => simp [upsertEntityList, entCountList, EntityRow.key]
  | cons r rs ih =>
    simp only [upsertEntityList]
    by_cases h : r.key = (filename, offset)
    · rw [if_pos h]
      simp only [EntityRow.key] at h
      simp only [entCountList, EntityRow.key, ← h]
      by_cases hk : (r.filename, r.offset) = k
      · subst hk
        have hrw : ∀ (n m : Nat),
            (if (r.filename, r.offset) = (r.filename, r.offset) then n else m) = n :=
          fun n m => if_pos rfl
        rw [hrw, hrw, hrw]
        omega
      · simp [hk]
    · rw [if_neg h]
      simp only [entCountList, ih]
      omega

/-- Entity metadata updates move names and types, never keys or counters. -/
theorem entCountList_map_update (k : String × Int) (l : List EntityRow)
    (f : EntityRow → EntityRow)
    (hkey : ∀ r, (f r).key = r.key)
    (hcount : ∀ r, (f r).observationCount = r.observationCount) :
    entCountList k (l.map f) = entCountList k l := by
  induction l with
  | nil => rfl
  | cons r rs ih => simp [entCountList, hkey, hcount, ih]

/-- `processLiteralValue` touches the value-observation table exactly through
its single upsert; the string-literal and object-shape upserts leave it
unchanged. -/
theorem processLiteralValue_valueObservations (md5hex : String → String) (s : Store)
    (entityId : String × Int) (value : JsValue) (functionName : Option String)
    (context : String) :
    (processLiteralValue md5hex s entityId value functionName context).valueObservations
      = upsertValueObservationList entityId (getValueType value)
          (serializeLiteralValue value (getValueType value))
          (hashValue md5hex (serializeLiteralValue value (getValueType value)))
          (enhancedContextOf functionName context) s.valueObservations := by
  simp only [processLiteralValue, enhancedContextOf]
  cases value <;> dsimp only <;>
    first
    | rfl
    | (split <;> rfl)
    | (split <;> (try split) <;> rfl)

theorem processLiteralValue_entities (md5hex : String → String) (s : Store)
    (entityId : String × Int) (value : JsValue) (functionName : Option String)
    (context : String) :
    (processLiteralValue md5hex s entityId value functionName context).entities = s.entities := by
  simp only [processLiteralValue]
  cases value <;> dsimp only <;>
    first
    | rfl
    | (split <;> rfl)
    | (split <;> (try split) <;> rfl)

@[simp]
theorem voCount_upsertEntity (s : Store) (f : String) (o : Int) (k : VoKey) :
    (upsertEntity s f o).voCount k = s.voCount k := rfl

@[simp]
theorem voCount_updateEntity (s : Store) (a : Option String) (b c : Option Int) (d : String)
    (k0 : String × Int) (k : VoKey) : (updateEntity s a b c d k0).voCount k = s.voCount k := rfl

@[simp]
theorem voCount_upsertHofRelationship (s : Store) (e : String × Int) (cn : String) (i : Int)
    (f : String) (k : VoKey) : (upsertHofRelationship s e cn i f).voCount k = s.voCount k := rfl

theorem voCount_processLiteralValue (md5hex : String → String) (s : Store)
    (entityId : String × Int) (value : JsValue) (functionName : Option String)
    (context : String) (k : VoKey) :
    (processLiteralValue md5hex s entityId value functionName context).voCount k
      = s.voCount k
        + (if voKeyOf md5hex entityId value functionName context = k then 1 else 0) := by
  unfold Store.voCount
  rw [processLiteralValue_valueObservations, voCountList_upsert]
  rfl

theorem voCount_foldl_values (md5hex : String → String) (entityId : String × Int)
    (functionName : Option String) (context : String)
    (types : List (JsValue × Option (Int × Int))) (s : Store) (k : VoKey) :
    (types.foldl
        (fun t rv =>
          if isNullOrUndefined rv.1 then t
          else processLiteralValue md5hex t entityId rv.1 functionName context) s).voCount k
      = s.voCount k
        + ((types.filterMap fun rv =>
            if isNullOrUndefined rv.1 then none
            else some (voKeyOf md5hex entityId rv.1 functionName context)).count k) := by
  induction types generalizing s with
  | nil => simp
  | cons rv rest ih =>
    simp only [List.foldl_cons, List.filterMap_cons]
    by_cases h : isNullOrUndefined rv.1
    · simp only [h, ite_true, if_pos]
      exact ih s
    · simp only [h, ite_false, Bool.false_eq_true, if_neg, not_false_iff]
      rw [ih, voCount_processLiteralValue, List.count_cons]
      simp only [beq_iff_eq]
      by_cases hk : voKeyOf md5hex entityId rv.1 functionName context = k
      · simp only [hk, if_pos rfl]
        omega
      · simp only [hk, if_neg]
        omega

theorem voCount_processTypeDataEntry (md5hex : String → String) (s : Store) (e : IngestEntry)
    (k : VoKey) :
    (processTypeDataEntry md5hex s e).voCount k = s.voCount k + (entryVoKeys md5hex e).count k := by
  obtain ⟨fname, off, types, md⟩ := e
  cases fname with
  | none => simp [processTypeDataEntry, entryVoKeys]
  | some fn =>
    by_cases hfe : fn = ""
    · simp [processTypeDataEntry, entryVoKeys, hfe]
    · cases types with
      | none =>
        simp only [processTypeDataEntry, entryVoKeys, hfe, ite_false, if_neg, not_false_iff,
          List.count_nil, Nat.add_zero]
        split <;> split <;> first | rfl | (split <;> rfl)
      | some ts =>
        simp only [processTypeDataEntry, entryVoKeys, hfe, ite_false, if_neg, not_false_iff]
        rw [voCount_foldl_values]
        congr 1
        split <;> split <;> first | rfl | (split <;> rfl)

theorem voCount_processTypeData (md5hex : String → String) (batch : List IngestEntry)
    (s : Store) (k : VoKey) :
    (processTypeData md5hex batch s).voCount k
      = s.voCount k + (batchVoKeys md5hex batch).count k := by
  induction batch generalizing s with
  | nil => simp [processTypeData, batchVoKeys]
  | cons e es ih =>
    show (processTypeData md5hex es (processTypeDataEntry md5hex s e)).voCount k = _
    rw [ih, voCount_processTypeDataEntry]
    simp only [batchVoKeys, List.count_append]
    omega

/-! Key membership and stability of the value-observation table. -/

theorem voKeys_processLiteralValue (md5hex : String → String) (s : Store)
    (entityId : String × Int) (value : JsValue) (functionName : Option String)
    (context : String) :
    (processLiteralValue md5hex s entityId value functionName context).voKeys
      = if voKeyOf md5hex entityId value functionName context ∈ s.voKeys then s.voKeys
        else s.voKeys ++ [voKeyOf md5hex entityId value functionName context] := by
  unfold Store.voKeys
  rw [processLiteralValue_valueObservations, voKeys_upsert]
  rfl

theorem mem_voKeys_processLiteralValue (md5hex : String → String) (s : Store)
    (entityId : String × Int) (value : JsValue) (functionName : Option String)
    (context : String) (k : VoKey) :
    (k ∈ (processLiteralValue md5hex s entityId value functionName context).voKeys
      ↔ k ∈ s.voKeys ∨ k = voKeyOf md5hex entityId value functionName context) := by
  rw [voKeys_processLiteralValue]
  by_cases h : voKeyOf md5hex entityId value functionName context ∈ s.voKeys
  · rw [if_pos h]
    constructor
    · exact Or.inl
    · rintro (hk | rfl)
      · exact hk
      · exact h
  · rw [if_neg h]
    simp [List.mem_append]

theorem voKeys_processLiteralValue_of_mem (md5hex : String → String) (s : Store)
    (entityId : String × Int) (value : JsValue) (functionName : Option String)
    (context : String)
    (h : voKeyOf md5hex entityId value functionName context ∈ s.voKeys) :
    (processLiteralValue md5hex s entityId value functionName context).voKeys = s.voKeys := by
  rw [voKeys_processLiteralValue, if_pos h]

theorem nodup_voKeys_processLiteralValue (md5hex : String → String) (s : Store)
    (entityId : String × Int) (value : JsValue) (functionName : Option String)
    (context : String) (h : s.voKeys.Nodup) :
    (processLiteralValue md5hex s entityId value functionName context).voKeys.Nodup := by
  rw [voKeys_processLiteralValue]
  by_cases hm : voKeyOf md5hex entityId value functionName context ∈ s.voKeys
  · rwa [if_pos hm]
  · rw [if_neg hm]
    simp [List.nodup_append, h, hm]

theorem mem_voKeys_foldl_values (md5hex : String → String) (entityId : String × Int)
    (functionName : Option String) (context : String)
    (types : List (JsValue × Option (Int × Int))) (s : Store) (k : VoKey) :
    (k ∈ (types.foldl
        (fun t rv =>
          if isNullOrUndefined rv.1 then t
          else processLiteralValue md5hex t entityId rv.1 functionName context) s).voKeys
      ↔ k ∈ s.voKeys
        ∨ k ∈ (types.filterMap fun rv =>
            if isNullOrUndefined rv.1 then none
            else some (voKeyOf md5hex entityId rv.1 functionName context))) := by
  induction types generalizing s with
  | nil => simp
  | cons rv rest ih =>
    simp only [List.foldl_cons, List.filterMap_cons]
    by_cases h : isNullOrUndefined rv.1
    · simp only [h, ite_true, if_pos]
      exact ih s
    · simp only [h, ite_false, Bool.false_eq_true, if_neg, not_false_iff]
      rw [ih]
      rw [mem_voKeys_processLiteralValue]
      simp only [List.mem_cons]
      tauto

theorem voKeys_foldl_values_of_subset (md5hex : String → String) (entityId : String × Int)
    (functionName : Option String) (context : String)
    (types : List (JsValue × Option (Int × Int))) (s : Store)
    (h : ∀ x ∈ (types.filterMap fun rv =>
        if isNullOrUndefined rv.1 then none
        else some (voKeyOf md5hex entityId rv.1 functionName context)), x ∈ s.voKeys) :
    (types.foldl
        (fun t rv =>
          if isNullOrUndefined rv.1 then t
          else processLiteralValue md5hex t entityId rv.1 functionName context) s).voKeys
      = s.voKeys := by
  induction types generalizing s with
  | nil => rfl
  | cons rv rest ih =>
    simp only [List.foldl_cons]
    by_cases hn : isNullOrUndefined rv.1
    · simp only [hn, ite_true, if_pos]
      refine ih s fun x hx => h x ?_
      simp only [List.filterMap_cons, hn, ite_true, if_pos]
      exact hx
    · simp only [hn, ite_false, Bool.false_eq_true, if_neg, not_false_iff]
      have hmem : voKeyOf md5hex entityId rv.1 functionName context ∈ s.voKeys := by
        apply h
        simp [List.filterMap_cons, hn]
      have hkeq := voKeys_processLiteralValue_of_mem md5hex s entityId rv.1 functionName context hmem
      rw [ih]
      · exact hkeq
      · intro x hx
        rw [hkeq]
        apply h
        simp only [List.filterMap_cons, hn, ite_false, Bool.false_eq_true, if_neg, not_false_iff,
          List.mem_cons]
        exact Or.inr hx

theorem nodup_voKeys_foldl_values (md5hex : String → String) (entityId : String × Int)
    (functionName : Option String) (context : String)
    (types : List (JsValue × Option (Int × Int))) (s : Store) (h : s.voKeys.Nodup) :
    (types.foldl
        (fun t rv =>
          if isNullOrUndefined rv.1 then t
          else processLiteralValue md5hex t entityId rv.1 functionName context) s).voKeys.Nodup := by
  induction types generalizing s with
  | nil => exact h
  | cons rv rest ih =>
    simp only [List.foldl_cons]
    by_cases hn : isNullOrUndefined rv.1
    · simp only [hn, ite_true, if_pos]
      exact ih s h
    · simp only [hn, ite_false, Bool.false_eq_true, if_neg, not_false_iff]
      exact ih _ (nodup_voKeys_processLiteralValue md5hex s entityId rv.1 functionName context h)

theorem voKeys_prefix_invariant (md5hex : String → String) (s : Store) (e : IngestEntry) :
    (processTypeDataEntry md5hex s e).voKeys = s.voKeys ∨ e.types ≠ none := by
  obtain ⟨fname, off, types, md⟩ := e
  cases fname with
  | none => exact Or.inl rfl
  | some fn =>
    cases types with
    | some ts => exact Or.inr (by simp)
    | none =>
      refine Or.inl ?_
      by_cases hfe : fn = ""
      · simp [processTypeDataEntry, hfe]
      · simp only [processTypeDataEntry, hfe, ite_false, if_neg, not_false_iff]
        split <;> split <;> first | rfl | (split <;> rfl)

theorem mem_voKeys_processTypeDataEntry (md5hex : String → String) (s : Store)
    (e : IngestEntry) (k : VoKey) :
    (k ∈ (processTypeDataEntry md5hex s e).voKeys
      ↔ k ∈ s.voKeys ∨ k ∈ entryVoKeys md5hex e) := by
  obtain ⟨fname, off, types, md⟩ := e
  cases fname with
  | none => simp [processTypeDataEntry, entryVoKeys]
  | some fn =>
    by_cases hfe : fn = ""
    · simp [processTypeDataEntry, entryVoKeys, hfe]
    · cases types with
      | none =>
        simp only [processTypeDataEntry, entryVoKeys, hfe, ite_false, if_neg, not_false_iff,
          List.not_mem_nil, or_false]
        constructor
        · intro hx
          revert hx
          split <;> split <;> first | (intro hx; exact hx) | (split <;> (intro hx; exact hx))
        · intro hx
          split <;> split <;> first | exact hx | (split <;> exact hx)
      | some ts =>
        simp only [processTypeDataEntry, entryVoKeys, hfe, ite_false, if_neg, not_false_iff]
        rw [mem_voKeys_foldl_values]
        constructor
        · rintro (hx | hx)
          · left
            revert hx
            split <;> split <;> first | (intro hx; exact hx) | (split <;> (intro hx; exact hx))
          · exact Or.inr hx
        · rintro (hx | hx)
          · left
            split <;> split <;> first | exact hx | (split <;> exact hx)
          · exact Or.inr hx

theorem voKeys_processTypeDataEntry_of_subset (md5hex : String → String) (s : Store)
    (e : IngestEntry) (h : ∀ x ∈ entryVoKeys md5hex e, x ∈ s.voKeys) :
    (processTypeDataEntry md5hex s e).voKeys = s.voKeys := by
  obtain ⟨fname, off, types, md⟩ := e
  cases fname with
  | none => rfl
  | some fn =>
    by_cases hfe : fn = ""
    · simp [processTypeDataEntry, hfe]
    · cases types with
      | none =>
        simp only [processTypeDataEntry, hfe, ite_false, if_neg, not_false_iff]
        split <;> split <;> first | rfl | (split <;> rfl)
      | some ts =>
        simp only [processTypeDataEntry, hfe, ite_false, if_neg, not_false_iff]
        have hpre : ∀ (t : Store), t.voKeys = s.voKeys →
            (ts.foldl (fun t rv =>
              if isNullOrUndefined rv.1 then t
              else processLiteralValue md5hex t (fn, off) rv.1
                (jsTruthyStr (md.bind (·.functionName)))
                ((jsTruthyStr (md.bind (·.context))).getD "unknown")) t).voKeys = s.voKeys := by
          intro t ht
          rw [voKeys_foldl_values_of_subset]
          · exact ht
          · intro x hx
            rw [ht]
            apply h
            simp only [entryVoKeys, hfe, ite_false, if_neg, not_false_iff]
            exact hx
        apply hpre
        split <;> split <;> first | rfl | (split <;> rfl)

theorem nodup_voKeys_processTypeDataEntry (md5hex : String → String) (s : Store)
    (e : IngestEntry) (h : s.voKeys.Nodup) :
    (processTypeDataEntry md5hex s e).voKeys.Nodup := by
  obtain ⟨fname, off, types, md⟩ := e
  cases fname with
  | none => exact h
  | some fn =>
    by_cases hfe : fn = ""
    · simpa [processTypeDataEntry, hfe] using h
    · cases types with
      | none =>
        simp only [processTypeDataEntry, hfe, ite_false, if_neg, not_false_iff]
        split <;> split <;> first | exact h | (split <;> exact h)
      | some ts =>
        simp only [processTypeDataEntry, hfe, ite_false, if_neg, not_false_iff]
        apply nodup_voKeys_foldl_values
        split <;> split <;> first | exact h | (split <;> exact h)

theorem mem_voKeys_processTypeData (md5hex : String → String) (batch : List IngestEntry)
    (s : Store) (k : VoKey) :
    (k ∈ (processTypeData md5hex batch s).voKeys
      ↔ k ∈ s.voKeys ∨ k ∈ batchVoKeys md5hex batch) := by
  induction batch generalizing s with
  | nil => simp [processTypeData, batchVoKeys]
  | cons e es ih =>
    show k ∈ (processTypeData md5hex es (processTypeDataEntry md5hex s e)).voKeys ↔ _
    rw [ih, mem_voKeys_processTypeDataEntry]
    simp only [batchVoKeys, List.mem_append]
    tauto

theorem voKeys_processTypeData_of_subset (md5hex : String → String) (batch : List IngestEntry)
    (s : Store) (h : ∀ x ∈ batchVoKeys md5hex batch, x ∈ s.voKeys) :
    (processTypeData md5hex batch s).voKeys = s.voKeys := by
  induction batch generalizing s with
  | nil => rfl
  | cons e es ih =>
    show (processTypeData md5hex es (processTypeDataEntry md5hex s e)).voKeys = s.voKeys
    have he : (processTypeDataEntry md5hex s e).voKeys = s.voKeys := by
      apply voKeys_processTypeDataEntry_of_subset
      intro x hx
      apply h
      simp only [batchVoKeys, List.mem_append]
      exact Or.inl hx
    have hsub : ∀ x ∈ batchVoKeys md5hex es, x ∈ (processTypeDataEntry md5hex s e).voKeys := by
      intro x hx
      rw [he]
      apply h
      simp only [batchVoKeys, List.mem_append]
      exact Or.inr hx
    rw [ih _ hsub]
    exact he

theorem nodup_voKeys_processTypeData (md5hex : String → String) (batch : List IngestEntry)
    (s : Store) (h : s.voKeys.Nodup) : (processTypeData md5hex batch s).voKeys.Nodup := by
  induction batch generalizing s with
  | nil => exact h
  | cons e es ih =>
    exact ih _ (nodup_voKeys_processTypeDataEntry md5hex s e h)

theorem voCount_ingestCopies (md5hex : String → String) (batch : List IngestEntry) (k : VoKey)
    (n : Nat) :
    (ingestCopies md5hex batch n).voCount k = n * (batchVoKeys md5hex batch).count k := by
  induction n with
  | zero => simp [ingestCopies, emptyStore, Store.voCount, voCountList]
  | succ m ih =>
    show (processTypeData md5hex batch (ingestCopies md5hex batch m)).voCount k = _
    rw [voCount_processTypeData, ih]
    ring

/-! Entity-count and entity-lookup lemmas. -/

@[simp]
theorem entCount_upsertValueObservation (s : Store) (e : String × Int) (a b c d : String)
    (k : String × Int) : (upsertValueObservation s e a b c d).entCount k = s.entCount k := rfl

@[simp]
theorem entCount_upsertStringLiteral (s : Store) (e : String × Int) (a b : String)
    (k : String × Int) : (upsertStringLiteral s e a b).entCount k = s.entCount k := rfl

@[simp]
theorem entCount_upsertObjectShape (s : Store) (e : String × Int) (a b c : String)
    (k : String × Int) : (upsertObjectShape s e a b c).entCount k = s.entCount k := rfl

@[simp]
theorem entCount_upsertHofRelationship (s : Store) (e : String × Int) (cn : String) (i : Int)
    (f : String) (k : String × Int) :
    (upsertHofRelationship s e cn i f).entCount k = s.entCount k := rfl

theorem entCount_updateEntity (s : Store) (a : Option String) (b c : Option Int) (d : String)
    (k0 k : String × Int) : (updateEntity s a b c d k0).entCount k = s.entCount k := by
  unfold Store.entCount updateEntity
  apply entCountList_map_update
  · intro r
    by_cases h : (r.filename, r.offset) = k0
    · simp [EntityRow.key, h]
    · simp [EntityRow.key, h]
  · intro r
    by_cases h : (r.filename, r.offset) = k0
    · simp [EntityRow.key, h]
    · simp [EntityRow.key, h]

theorem entCount_processLiteralValue (md5hex : String → String) (s : Store)
    (entityId : String × Int) (value : JsValue) (functionName : Option String)
    (context : String) (k : String × Int) :
    (processLiteralValue md5hex s entityId value functionName context).entCount k
      = s.entCount k := by
  unfold Store.entCount
  rw [processLiteralValue_entities]

theorem entCount_foldl_values (md5hex : String → String) (entityId : String × Int)
    (functionName : Option String) (context : String)
    (types : List (JsValue × Option (Int × Int))) (s : Store) (k : String × Int) :
    (types.foldl
        (fun t rv =>
          if isNullOrUndefined rv.1 then t
          else processLiteralValue md5hex t entityId rv.1 functionName context) s).entCount k
      = s.entCount k := by
  induction types generalizing s with
  | nil => rfl
  | cons rv rest ih =>
    simp only [List.foldl_cons]
    by_cases h : isNullOrUndefined rv.1
    · simp only [h, ite_true, if_pos]
      exact ih s
    · simp only [h, ite_false, Bool.false_eq_true, if_neg, not_false_iff]
      rw [ih, entCount_processLiteralValue]

theorem entCount_upsertEntity (s : Store) (fn : String) (off : Int) (k : String × Int) :
    (upsertEntity s fn off).entCount k = s.entCount k + (if (fn, off) = k then 1 else 0) :=
  entCountList_upsert fn off k s.entities

theorem entCount_processTypeDataEntry (md5hex : String → String) (s : Store) (e : IngestEntry)
    (k : String × Int) :
    (processTypeDataEntry md5hex s e).entCount k
      = s.entCount k + (entryEntKeys e).count k := by
  obtain ⟨fname, off, types, md⟩ := e
  cases fname with
  | none => simp [processTypeDataEntry, entryEntKeys]
  | some fn =>
    by_cases hfe : fn = ""
    · simp [processTypeDataEntry, entryEntKeys, hfe]
    · have hsingle : (entryEntKeys
          { filename := some fn, offset := off, types := types, metadata := md }).count k
            = (if (fn, off) = k then 1 else 0) := by
        simp [entryEntKeys, hfe, List.count_cons, beq_iff_eq]
      rw [hsingle]
      cases types with
      | none =>
        simp only [processTypeDataEntry, hfe, ite_false, if_neg, not_false_iff]
        split <;> (try split) <;> (try split) <;>
          simp only [entCount_upsertHofRelationship, entCount_updateEntity,
            entCount_upsertEntity] <;> simp_all
      | some ts =>
        simp only [processTypeDataEntry, hfe, ite_false, if_neg, not_false_iff]
        rw [entCount_foldl_values]
        split <;> (try split) <;> (try split) <;>
          simp only [entCount_upsertHofRelationship, entCount_updateEntity,
            entCount_upsertEntity] <;> simp_all

theorem entCount_processTypeData (md5hex : String → String) (batch : List IngestEntry)
    (s : Store) (k : String × Int) :
    (processTypeData md5hex batch s).entCount k
      = s.entCount k + (batchEntKeys batch).count k := by
  induction batch generalizing s with
  | nil => simp [processTypeData, batchEntKeys]
  | cons e es ih =>
    show (processTypeData md5hex es (processTypeDataEntry md5hex s e)).entCount k = _
    rw [ih, entCount_processTypeDataEntry]
    simp only [batchEntKeys, List.count_append]
    omega

/-! Entity lookup through upsert and metadata update. -/

theorem find?_map_keyinv {α : Type} (p : α → Bool) (f : α → α) (h : ∀ r, p (f r) = p r) :
    ∀ l : List α, (l.map f).find? p = (l.find? p).map f := by
  intro l
  induction l with
  | nil => rfl
  | cons r rs ih =>
    by_cases hp : p r
    · rw [List.map_cons, List.find?_cons_of_pos _ (by rw [h]; exact hp),
        List.find?_cons_of_pos _ hp]
      rfl
    · rw [List.map_cons, List.find?_cons_of_neg _ (by rw [h]; simpa using hp),
        List.find?_cons_of_neg _ (by simpa using hp), ih]

theorem find?_upsertEntityList_self (fn : String) (off : Int) (l : List EntityRow) :
    (upsertEntityList fn off l).find? (fun r => decide (r.key = (fn, off)))
      = some
        (match l.find? (fun r => decide (r.key = (fn, off))) with
         | some r => { r with observationCount := r.observationCount + 1 }
         | none => { filename := fn, offset := off }) := by
  induction l with
  | nil =>
    simp [upsertEntityList, List.find?, EntityRow.key]
  | cons r rs ih =>
    by_cases h : r.key = (fn, off)
    · simp only [upsertEntityList, if_pos h]
      rw [List.find?_cons_of_pos _ (by simp [EntityRow.key]; simp [EntityRow.key] at h; exact h),
        List.find?_cons_of_pos _ (by simpa using h)]
    · simp only [upsertEntityList, if_neg h]
      rw [List.find?_cons_of_neg _ (by simpa using h),
        List.find?_cons_of_neg _ (by simpa using h), ih]

/-! ### Claim theorems for the collector (C2, C3, C4, C7) -/

/-- C3 (counterexample): the claim says every value of `value_list`, including
null and undefined surrogates, yields exactly one value-observation upsert.
Ingesting a record whose single value is `null` leaves the value-observation
table empty, although the record itself was processed (its entity row was
created).  The guard `rawValue !== undefined && rawValue !== null` in
`processTypeData` skips such values. -/
theorem null_value_skipped_counterexample :
    (processTypeData (fun _ => "00000000")
        [{ filename := some "a.js", offset := 0, types := some [(JsValue.vNull, none)],
           metadata := none }] emptyStore).valueObservations = []
    ∧ (processTypeData (fun _ => "00000000")
        [{ filename := some "a.js", offset := 0, types := some [(JsValue.vNull, none)],
           metadata := none }] emptyStore).entities.length = 1 := by
  constructor <;> decide

/-- C3 (amended): for every record of a batch, the collector upserts exactly
one value observation per non-null, non-undefined value of its `value_list`
(null and undefined values are skipped), keyed by
`(entity, value_hash, context)` where `value_hash` is the first 8 characters
of the hex MD5 digest of `literal_value` and `context` is
`<entity_context>_in_<functionName>` when a function name is known, else the
bare entity context. -/
theorem value_list_upserts (md5hex : String → String) (s : Store) (fn : String) (off : Int)
    (types : List (JsValue × Option (Int × Int))) (md : Option TwizMetadata)
    (hfn : fn ≠ "") (k : VoKey) :
    Store.voCount (processTypeDataEntry md5hex s
        { filename := some fn, offset := off, types := some types, metadata := md }) k
      = Store.voCount s k
        + (types.filterMap fun rv =>
            if isNullOrUndefined rv.1 then none
            else some ((fn, off),
              strTake (md5hex (serializeLiteralValue rv.1 (getValueType rv.1))) 8,
              enhancedContextOf (jsTruthyStr (md.bind (·.functionName)))
                ((jsTruthyStr (md.bind (·.context))).getD "unknown"))).count k := by
  rw [voCount_processTypeDataEntry]
  have hkeys : entryVoKeys md5hex
      { filename := some fn, offset := off, types := some types, metadata := md }
      = types.filterMap fun rv =>
          if isNullOrUndefined rv.1 then none
          else some ((fn, off),
            strTake (md5hex (serializeLiteralValue rv.1 (getValueType rv.1))) 8,
            enhancedContextOf (jsTruthyStr (md.bind (·.functionName)))
              ((jsTruthyStr (md.bind (·.context))).getD "unknown")) := by
    simp [entryVoKeys, hfn, voKeyOf, hashValue]
  rw [hkeys]

theorem value_list_upserts_witness :
    ("b.js" : String) ≠ ""
    ∧ Store.voCount (processTypeDataEntry (fun _ => "11112222") emptyStore
        { filename := some "b.js", offset := 3,
          types := some [(JsValue.vNum 1, none), (JsValue.vNull, none)],
          metadata := some { functionName := some "f" } }) (("b.js", 3), "11112222", "unknown_in_f")
      = Store.voCount emptyStore (("b.js", 3), "11112222", "unknown_in_f")
        + ([(JsValue.vNum 1, none), (JsValue.vNull, none)].filterMap
            fun rv : JsValue × Option (Int × Int) =>
            if isNullOrUndefined rv.1 then none
            else some (("b.js", 3),
              strTake ((fun _ => "11112222") (serializeLiteralValue rv.1 (getValueType rv.1))) 8,
              enhancedContextOf
                (jsTruthyStr ((some { functionName := some "f" } :
                    Option TwizMetadata).bind (·.functionName)))
                ((jsTruthyStr ((some { functionName := some "f" } :
                    Option TwizMetadata).bind (·.context))).getD "unknown"))).count
            (("b.js", 3), "11112222", "unknown_in_f") :=
  ⟨by decide,
    value_list_upserts (fun _ => "11112222") emptyStore "b.js" 3
      [(JsValue.vNum 1, none), (JsValue.vNull, none)]
      (some { functionName := some "f" }) (by decide)
      (("b.js", 3), "11112222", "unknown_in_f")⟩

/-- C4: replaying one batch N times against a fresh store gives
`observation_count = N` at every value-observation key the batch touches
exactly once, the replay introduces no new rows (the key list after N+1
ingests equals the key list after N ingests, N ≥ 1), and no duplicate row
exists for any key. -/
theorem replay_idempotence (md5hex : String → String) (batch : List IngestEntry) (k : VoKey)
    (n : Nat) (honce : (batchVoKeys md5hex batch).count k = 1) :
    Store.voCount (ingestCopies md5hex batch (n + 1)) k = n + 1
    ∧ Store.voKeys (ingestCopies md5hex batch (n + 2))
        = Store.voKeys (ingestCopies md5hex batch (n + 1))
    ∧ (Store.voKeys (ingestCopies md5hex batch (n + 1))).Nodup := by
  refine ⟨?_, ?_, ?_⟩
  · rw [voCount_ingestCopies, honce, Nat.mul_one]
  · show (processTypeData md5hex batch (ingestCopies md5hex batch (n + 1))).voKeys = _
    apply voKeys_processTypeData_of_subset
    intro x hx
    show x ∈ (processTypeData md5hex batch (ingestCopies md5hex batch n)).voKeys
    rw [mem_voKeys_processTypeData]
    exact Or.inr hx
  · have hbase : (ingestCopies md5hex batch 0).voKeys.Nodup := List.nodup_nil
    have : ∀ m : Nat, (ingestCopies md5hex batch m).voKeys.Nodup := by
      intro m
      induction m with
      | zero => exact hbase
      | succ p ih => exact nodup_voKeys_processTypeData md5hex batch _ ih
    exact this (n + 1)

theorem replay_idempotence_witness :
    (batchVoKeys (fun _ => "abcdef12")
        [{ filename := some "a.js", offset := 0,
           types := some [(JsValue.vStr "success", none)],
           metadata := some { functionName := some "setStatus", context := some "parameter" } }]).count
      (("a.js", 0), "abcdef12", "parameter_in_setStatus") = 1
    ∧ Store.voCount (ingestCopies (fun _ => "abcdef12")
        [{ filename := some "a.js", offset := 0,
           types := some [(JsValue.vStr "success", none)],
           metadata := some { functionName := some "setStatus", context := some "parameter" } }] 2)
        (("a.js", 0), "abcdef12", "parameter_in_setStatus") = 2 :=
  ⟨by decide,
    (replay_idempotence (fun _ => "abcdef12")
      [{ filename := some "a.js", offset := 0,
         types := some [(JsValue.vStr "success", none)],
         metadata := some { functionName := some "setStatus", context := some "parameter" } }]
      (("a.js", 0), "abcdef12", "parameter_in_setStatus") 1 (by decide)).1⟩

/-- C2 (counterexample): the claim says that if any record of a batch fails,
no record of the batch is applied.  In the batch below the first record fails
(its `types` slot is not iterable, so `for ... of types` throws inside the
per-record `try`), yet the store is changed and the second record's entity is
fully applied. -/
theorem batch_atomicity_counterexample :
    (processTypeData (fun _ => "00000000")
        [{ filename := some "bad.js", offset := 0, types := none, metadata := none },
         { filename := some "ok.js", offset := 0, types := some [(JsValue.vNum 1, none)],
           metadata := none }] emptyStore) ≠ emptyStore
    ∧ Store.entCount (processTypeData (fun _ => "00000000")
        [{ filename := some "bad.js", offset := 0, types := none, metadata := none },
         { filename := some "ok.js", offset := 0, types := some [(JsValue.vNum 1, none)],
           metadata := none }] emptyStore) ("ok.js", 0) = 1 := by
  constructor <;> decide

/-- C2 (amended): batch ingest is not atomic across records — each record's
processing is wrapped in its own `try`/`catch` inside the transaction, so a
failing record (here: one whose `types` is not iterable and which therefore
throws) is skipped with its partial effects kept, and every other record of
the batch is still applied: the entity of a non-failing record is upserted
regardless of the failure. -/
theorem batch_failure_not_atomic (md5hex : String → String) (s : Store)
    (bad good : IngestEntry) (bfn : String) (k : String × Int)
    (hbf : bad.filename = some bfn) (hbf' : bfn ≠ "") (hbt : bad.types = none)
    (hgood : (entryEntKeys good).count k = 1) (hbad : (entryEntKeys bad).count k = 0) :
    Store.entCount (processTypeData md5hex [bad, good] s) k = Store.entCount s k + 1 := by
  rw [entCount_processTypeData]
  simp [batchEntKeys, List.count_append, hgood, hbad]

theorem batch_failure_not_atomic_witness :
    ({ filename := some "bad.js", offset := 0, types := none, metadata := none } :
        IngestEntry).filename = some "bad.js"
    ∧ ("bad.js" : String) ≠ ""
    ∧ ({ filename := some "bad.js", offset := 0, types := none, metadata := none } :
        IngestEntry).types = none
    ∧ Store.entCount (processTypeData (fun _ => "00000000")
        [{ filename := some "bad.js", offset := 0, types := none, metadata := none },
         { filename := some "ok.js", offset := 7, types := some [(JsValue.vNum 1, none)],
           metadata := none }] emptyStore) ("ok.js", 7)
      = Store.entCount emptyStore ("ok.js", 7) + 1 :=
  ⟨rfl, by decide, rfl,
    batch_failure_not_atomic (fun _ => "00000000") emptyStore
      { filename := some "bad.js", offset := 0, types := none, metadata := none }
      { filename := some "ok.js", offset := 7, types := some [(JsValue.vNum 1, none)],
        metadata := none }
      "bad.js" ("ok.js", 7) rfl (by decide) rfl (by decide) (by decide)⟩

/-- C7 (counterexample): the claim says all four fields — including
`entity_type` — treat a null input as "leave the prior stored value intact".
Here an entity stored with `entity_type = "constructor_parameter"` receives a
record carrying a `functionName` but no `context`; the update statement sets
`entity_type = ?` without COALESCE, so the stored value is overwritten with
the default `"unknown"`. -/
theorem entity_type_overwrite_counterexample :
    (Store.entLookup
        (processTypeData (fun _ => "00000000")
          [{ filename := some "a.js", offset := 0, types := some [],
             metadata := some { functionName := some "setX" } }]
          { entities := [{ filename := "a.js", offset := 0, entityName := some "todo",
                           entityType := "constructor_parameter", lineNumber := some 3,
                           columnNumber := some 4 }] })
        ("a.js", 0)).map (·.entityType) = some "unknown" := by
  decide

/-- C7 (amended): when a record carries entity metadata (a truthy
`functionName` or a non-null `lineNumber`), the collector updates the entity
row as follows: `entity_name`, `line_number` and `column_number` are
COALESCEd, so a null input leaves the prior stored value intact; but
`entity_type` is overwritten unconditionally with the supplied context,
which defaults to `"unknown"` when the record carries none.  (A `functionName`
of `""` and a `lineNumber` of `0` count as null, through JS `||`.) -/
theorem entity_metadata_update (md5hex : String → String) (s : Store) (fn : String) (off : Int)
    (meta : TwizMetadata) (r₀ : EntityRow)
    (hfn : fn ≠ "")
    (hlook : Store.entLookup s (fn, off) = some r₀)
    (htrig : ((jsTruthyStr meta.functionName).isSome
        || (jsTruthyInt meta.lineNumber).isSome) = true) :
    Store.entLookup (processTypeDataEntry md5hex s
        { filename := some fn, offset := off, types := some [], metadata := some meta })
        (fn, off)
      = some
        { r₀ with
          observationCount := r₀.observationCount + 1
          entityName :=
            match jsTruthyStr meta.functionName with
            | some f => some f
            | none => r₀.entityName
          lineNumber :=
            match jsTruthyInt meta.lineNumber with
            | some l => some l
            | none => r₀.lineNumber
          columnNumber :=
            match jsTruthyInt meta.columnNumber with
            | some c => some c
            | none => r₀.columnNumber
          entityType := (jsTruthyStr meta.context).getD "unknown" } := by
  have hkey : r₀.key = (fn, off) := by
    have hp := List.find?_some hlook
    exact of_decide_eq_true hp
  have hmain : Store.entLookup
      (updateEntity (upsertEntity s fn off) (jsTruthyStr meta.functionName)
        (jsTruthyInt meta.lineNumber) (jsTruthyInt meta.columnNumber)
        ((jsTruthyStr meta.context).getD "unknown") (fn, off)) (fn, off)
      = some
        { r₀ with
          observationCount := r₀.observationCount + 1
          entityName :=
            match jsTruthyStr meta.functionName with
            | some f => some f
            | none => r₀.entityName
          lineNumber :=
            match jsTruthyInt meta.lineNumber with
            | some l => some l
            | none => r₀.lineNumber
          columnNumber :=
            match jsTruthyInt meta.columnNumber with
            | some c => some c
            | none => r₀.columnNumber
          entityType := (jsTruthyStr meta.context).getD "unknown" } := by
    unfold Store.entLookup updateEntity upsertEntity
    rw [find?_map_keyinv _ _ (by
      intro r
      by_cases hr : (r.filename, r.offset) = (fn, off) <;> simp [EntityRow.key, hr])]
    rw [find?_upsertEntityList_self]
    unfold Store.entLookup at hlook
    rw [hlook]
    have hbk : ({ r₀ with observationCount := r₀.observationCount + 1 } : EntityRow).key
        = (fn, off) := by
      simpa [EntityRow.key] using hkey
    rw [Option.map_some', if_pos hbk]
  unfold processTypeDataEntry
  dsimp only
  rw [if_neg hfn]
  dsimp only [Option.bind]
  cases hcn : jsTruthyStr meta.calleeName with
  | none =>
    dsimp only
    rw [if_pos htrig]
    exact hmain
  | some cn =>
    cases hcai : meta.calleeArgIndex with
    | none =>
      dsimp only
      rw [if_pos htrig]
      exact hmain
    | some idx =>
      dsimp only
      rw [if_pos htrig]
      exact hmain

theorem entity_metadata_update_witness :
    ("a.js" : String) ≠ ""
    ∧ Store.entLookup
        ({ entities := [{ filename := "a.js", offset := 0, entityName := some "todo",
                          entityType := "constructor_parameter", lineNumber := some 3,
                          columnNumber := some 4 }] } : Store) ("a.js", 0)
        = some { filename := "a.js", offset := 0, entityName := some "todo",
                 entityType := "constructor_parameter", lineNumber := some 3,
                 columnNumber := some 4 }
    ∧ ((jsTruthyStr (some "setX")).isSome || (jsTruthyInt none).isSome) = true
    ∧ Store.entLookup (processTypeDataEntry (fun _ => "00000000")
        ({ entities := [{ filename := "a.js", offset := 0, entityName := some "todo",
                          entityType := "constructor_parameter", lineNumber := some 3,
                          columnNumber := some 4 }] } : Store)
        { filename := some "a.js", offset := 0, types := some [],
          metadata := some { functionName := some "setX" } }) ("a.js", 0)
      = some { filename := "a.js", offset := 0, entityName := some "setX",
               entityType := "unknown", lineNumber := some 3, columnNumber := some 4,
               observationCount := 2 } :=
  ⟨by decide, by decide, by decide, by
    have h := entity_metadata_update (fun _ => "00000000")
      ({ entities := [{ filename := "a.js", offset := 0, entityName := some "todo",
                        entityType := "constructor_parameter", lineNumber := some 3,
                        columnNumber := some 4 }] } : Store)
      "a.js" 0 { functionName := some "setX" }
      { filename := "a.js", offset := 0, entityName := some "todo",
        entityType := "constructor_parameter", lineNumber := some 3, columnNumber := some 4 }
      (by decide) (by decide) (by decide)
    exact h.trans (by decide)⟩

/-! ### Lexicographic sorting facts, for the object-shape signature (C8) -/

theorem charListLe_total : ∀ as bs : List Char, charListLe as bs = true ∨ charListLe bs as = true
  | [], _ => Or.inl rfl
  | _ :: _, [] => Or.inr rfl
  | a :: as, b :: bs => by
    by_cases h1 : a < b
    · left
      simp [charListLe, h1]
    · by_cases h2 : b < a
      · right
        simp [charListLe, h2]
      · have hab : a = b := le_antisymm (not_lt.mp h2) (not_lt.mp h1)
        subst hab
        rcases charListLe_total as bs with h | h
        · left
          simpa [charListLe] using h
        · right
          simpa [charListLe] using h

theorem charListLe_trans :
    ∀ as bs cs : List Char, charListLe as bs = true → charListLe bs cs = true →
      charListLe as cs = true
  | [], _, _, _, _ => rfl
  | a :: as, [], _, h1, _ => by simp [charListLe] at h1
  | _ :: _, _ :: _, [], _, h2 => by simp [charListLe] at h2
  | a :: as, b :: bs, c :: cs, h1, h2 => by
    by_cases hab : a < b
    · by_cases hbc : b < c
      · simp [charListLe, lt_trans hab hbc]
      · by_cases hcb : c < b
        · simp [charListLe, hbc, hcb] at h2
        · have hbc' : b = c := le_antisymm (not_lt.mp hcb) (not_lt.mp hbc)
          subst hbc'
          simp [charListLe, hab]
    · by_cases hba : b < a
      · simp [charListLe, hab, hba] at h1
      · have hab' : a = b := le_antisymm (not_lt.mp hba) (not_lt.mp hab)
        subst hab'
        simp only [charListLe, lt_irrefl, ite_false, if_neg, not_false_iff] at h1
        by_cases hac : a < c
        · simp [charListLe, hac]
        · by_cases hca : c < a
          · simp [charListLe, hac, hca] at h2
          · simp only [charListLe, hac, hca, ite_false, if_neg, not_false_iff] at h2 ⊢
            exact charListLe_trans as bs cs h1 h2

theorem charListLe_antisymm :
    ∀ as bs : List Char, charListLe as bs = true → charListLe bs as = true → as = bs
  | [], [], _, _ => rfl
  | [], _ :: _, _, h2 => by simp [charListLe] at h2
  | _ :: _, [], h1, _ => by simp [charListLe] at h1
  | a :: as, b :: bs, h1, h2 => by
    by_cases hab : a < b
    · have : ¬ b < a := lt_asymm hab
      simp [charListLe, this, hab] at h2
    · by_cases hba : b < a
      · simp [charListLe, hab, hba] at h1
      · have hab' : a = b := le_antisymm (not_lt.mp hba) (not_lt.mp hab)
        subst hab'
        simp only [charListLe, lt_irrefl, ite_false, if_neg, not_false_iff] at h1 h2
        rw [charListLe_antisymm as bs h1 h2]

theorem strLe_total (a b : String) : strLe a b = true ∨ strLe b a = true :=
  charListLe_total a.toList b.toList

theorem strLe_trans {a b c : String} (h1 : strLe a b = true) (h2 : strLe b c = true) :
    strLe a c = true :=
  charListLe_trans a.toList b.toList c.toList h1 h2

theorem strLe_antisymm {a b : String} (h1 : strLe a b = true) (h2 : strLe b a = true) :
    a = b := by
  have hdata : a.data = b.data := charListLe_antisymm a.toList b.toList h1 h2
  calc a = String.mk a.data := rfl
    _ = String.mk b.data := by rw [hdata]
    _ = b := rfl

theorem jsOrderedInsert_perm (a : String) (l : List String) :
    (jsOrderedInsert a l).Perm (a :: l) := by
  induction l with
  | nil => exact List.Perm.refl _
  | cons b bs ih =>
    simp only [jsOrderedInsert]
    by_cases h : strLe a b
    · rw [if_pos h]
    · rw [if_neg h]
      exact (ih.cons b).trans (List.Perm.swap a b bs)

theorem jsSortStrings_perm (l : List String) : (jsSortStrings l).Perm l := by
  induction l with
  | nil => exact List.Perm.refl _
  | cons a as ih =>
    exact (jsOrderedInsert_perm a (jsSortStrings as)).trans (ih.cons a)

theorem sorted_jsOrderedInsert (a : String) (l : List String)
    (h : l.Pairwise (fun x y => strLe x y = true)) :
    (jsOrderedInsert a l).Pairwise (fun x y => strLe x y = true) := by
  induction l with
  | nil => simp [jsOrderedInsert]
  | cons b bs ih =>
    simp only [jsOrderedInsert]
    by_cases hab : strLe a b
    · rw [if_pos hab]
      refine List.Pairwise.cons ?_ h
      intro x hx
      rcases List.mem_cons.mp hx with rfl | hx2
      · exact hab
      · exact strLe_trans hab (List.rel_of_pairwise_cons h hx2)
    · rw [if_neg hab]
      have hba : strLe b a = true := (strLe_total a b).resolve_left hab
      refine List.Pairwise.cons ?_ (ih (List.Pairwise.sublist (List.sublist_cons_self b bs) h))
      intro x hx
      have hx2 : x = a ∨ x ∈ bs := by
        have hmem := (jsOrderedInsert_perm a bs).mem_iff.mp hx
        simpa [List.mem_cons] using hmem
      rcases hx2 with rfl | hx2
      · exact hba
      · exact List.rel_of_pairwise_cons h hx2

theorem sorted_jsSortStrings (l : List String) :
    (jsSortStrings l).Pairwise (fun x y => strLe x y = true) := by
  induction l with
  | nil => simp [jsSortStrings]
  | cons a as ih => exact sorted_jsOrderedInsert a (jsSortStrings as) ih

theorem jsSortStrings_eq_of_perm {l1 l2 : List String} (h : l1.Perm l2) :
    jsSortStrings l1 = jsSortStrings l2 := by
  haveI : IsAntisymm String (fun x y => strLe x y = true) := ⟨fun _ _ => strLe_antisymm⟩
  exact List.eq_of_perm_of_sorted
    (((jsSortStrings_perm l1).trans h).trans (jsSortStrings_perm l2).symm)
    (sorted_jsSortStrings l1) (sorted_jsSortStrings l2)

theorem lookupField_eq_of_perm {fields₁ fields₂ : List (String × JsValue)}
    (h : fields₁.Perm fields₂) :
    (fields₁.map Prod.fst).Nodup → ∀ k, lookupField fields₁ k = lookupField fields₂ k := by
  induction h with
  | nil => intro _ k; rfl
  | cons x h ih =>
    intro hnd k
    simp only [lookupField]
    by_cases hk : x.1 = k
    · rw [if_pos hk, if_pos hk]
    · rw [if_neg hk, if_neg hk]
      refine ih ?_ k
      simp only [List.map_cons, List.nodup_cons] at hnd
      exact hnd.2
  | swap x y t =>
    intro hnd k
    simp only [lookupField]
    by_cases hky : y.1 = k
    · have hxy : y.1 ≠ x.1 := by
        simp only [List.map_cons, List.nodup_cons, List.mem_cons, List.mem_map] at hnd
        exact fun hcontra => hnd.1 (Or.inl hcontra)
      rw [if_pos hky, if_neg (fun hx : x.1 = k => hxy (hky.trans hx.symm)), if_pos hky]
    · by_cases hkx : x.1 = k
      · rw [if_neg hky, if_pos hkx, if_pos hkx]
      · rw [if_neg hky, if_neg hkx, if_neg hkx, if_neg hky]
  | trans h1 h2 ih1 ih2 =>
    intro hnd k
    have hnd2 := ((h1.map Prod.fst).nodup_iff).mp hnd
    rw [ih1 hnd k, ih2 hnd2 k]

/-- C8: the shape signature recorded by `analyzeObjectShape` (keys sorted
lexicographically, each annotated with its type, comma-joined) is invariant
under any reordering of the keys of the serialised object: two objects with
the same key-to-type mapping yield equal signatures.  Objects with 0 keys or
more than 20 keys produce no shape record. -/
theorem shape_signature_invariance :
    (∀ fields₁ fields₂ : List (String × JsValue),
        fields₁.Perm fields₂ → (fields₁.map Prod.fst).Nodup →
        analyzeObjectShape (.vObj fields₁) = analyzeObjectShape (.vObj fields₂))
    ∧ (∀ fields : List (String × JsValue),
        fields.length = 0 ∨ fields.length > 20 →
        analyzeObjectShape (.vObj fields) = none) := by
  constructor
  · intro f1 f2 hperm hnd
    have hkeys : (f1.map Prod.fst).Perm (f2.map Prod.fst) := hperm.map Prod.fst
    have hlen : f1.length = f2.length := hperm.length_eq
    have hsort : jsSortStrings (f1.map Prod.fst) = jsSortStrings (f2.map Prod.fst) :=
      jsSortStrings_eq_of_perm hkeys
    have hlook : ∀ k, lookupField f1 k = lookupField f2 k := lookupField_eq_of_perm hperm hnd
    simp only [analyzeObjectShape, List.length_map, hlen, hsort]
    by_cases hc : f2.length = 0 ∨ f2.length > 20
    · rw [if_pos hc, if_pos hc]
    · rw [if_neg hc, if_neg hc]
      have hmap1 : (jsSortStrings (f2.map Prod.fst)).map
            (fun k => k ++ ":" ++ getValueType ((lookupField f1 k).getD .vUndefined))
          = (jsSortStrings (f2.map Prod.fst)).map
            (fun k => k ++ ":" ++ getValueType ((lookupField f2 k).getD .vUndefined)) :=
        List.map_congr_left (fun k _ => by rw [hlook k])
      have hmap2 : (jsSortStrings (f2.map Prod.fst)).map
            (fun k => (k, JsValue.vStr (getValueType ((lookupField f1 k).getD .vUndefined))))
          = (jsSortStrings (f2.map Prod.fst)).map
            (fun k => (k, JsValue.vStr (getValueType ((lookupField f2 k).getD .vUndefined)))) :=
        List.map_congr_left (fun k _ => by rw [hlook k])
      rw [hmap1, hmap2]
  · intro fields hc
    simp only [analyzeObjectShape, List.length_map]
    rw [if_pos hc]

theorem shape_signature_invariance_witness :
    ([("id", JsValue.vStr "a"), ("done", JsValue.vBool false)] :
        List (String × JsValue)).Perm [("done", JsValue.vBool false), ("id", JsValue.vStr "a")]
    ∧ (([("id", JsValue.vStr "a"), ("done", JsValue.vBool false)] :
        List (String × JsValue)).map Prod.fst).Nodup
    ∧ analyzeObjectShape (.vObj [("id", JsValue.vStr "a"), ("done", JsValue.vBool false)])
        = analyzeObjectShape (.vObj [("done", JsValue.vBool false), ("id", JsValue.vStr "a")]) :=
  ⟨List.Perm.swap _ _ _, by decide,
    shape_signature_invariance.1 _ _ (List.Perm.swap _ _ _) (by decide)⟩

/-! ### The AST instrumenter (`src/typewiz-enhanced/lib/ast-instrumenter.js`)

The Babel parser and code generator are external dependencies and appear as
function parameters; source positions are omitted from the record model (no
claim concerns them). -/

/-- The descriptor produced by `extractParameterInfo`. -/
structure ParamInfo where
  name : String
  annType : Option String := none
  hasDefault : Bool := false
  isDestructured : Bool := false
  isRest : Bool := false
  accessibility : Option String := none
deriving DecidableEq, Repr

/-- The Babel parameter forms `extractParameterInfo` discriminates:
identifiers, `AssignmentPattern`s (defaults), `TSParameterProperty`s (with the
two nestings the source handles), object/array patterns, rest elements, and a
catch-all for the forms the source does not handle (for which it returns
null), e.g. an `AssignmentPattern` whose left side is itself a pattern. -/
inductive BParam where
  | ident (name : String) (annotated : Bool)
  | assignIdent (name : String) (annotated : Bool)
  | tsParamPropIdent (name : String) (annotated : Bool) (access : Option String)
  | tsParamPropAssign (name : String) (annotated : Bool) (access : Option String)
  | assignTsProp (name : String) (annotated : Bool) (access : Option String)
  | objectPattern (annotated : Bool)
  | arrayPattern (annotated : Bool)
  | restIdent (name : String) (annotated : Bool)
  | unhandled
deriving DecidableEq, Repr

/-- `extractParameterInfo` of `ast-instrumenter.js`. -/
def extractParameterInfo : BParam → Option ParamInfo
  | .tsParamPropAssign n ann acc =>
    some { name := n, annType := if ann then some "annotated" else none, hasDefault := true,
           accessibility := acc }
  | .tsParamPropIdent n ann acc =>
    some { name := n, annType := if ann then some "annotated" else none, accessibility := acc }
  | .ident n ann => some { name := n, annType := if ann then some "annotated" else none }
  | .assignIdent n ann =>
    some { name := n, annType := if ann then some "annotated" else none, hasDefault := true }
  | .assignTsProp n ann acc =>
    some { name := n, annType := if ann then some "annotated" else none, hasDefault := true,
           accessibility := acc }
  | .objectPattern ann =>
    some { name := "destructured_object", annType := if ann then some "annotated" else none,
           isDestructured := true }
  | .arrayPattern ann =>
    some { name := "destructured_array", annType := if ann then some "annotated" else none,
           isDestructured := true }
  | .restIdent n ann =>
    some { name := n, annType := if ann then some "annotated" else none, isRest := true }
  | .unhandled => none

/-- The metadata object passed to `createTypeWizCall` (entry and parameter
records set different subsets of keys; `calleeName`/`calleeArgIndex` are set
only by the callback instrumentation). -/
structure TwizCallMeta where
  functionName : String
  parameterName : Option String := none
  parameterIndex : Option Nat := none
  parameterType : Option String := none
  hasDefault : Option Bool := none
  isDestructured : Option Bool := none
  isRest : Option Bool := none
  accessibility : Option String := none
  context : String
  hasParameters : Option Bool := none
  parameterCount : Option Nat := none
  calleeName : Option String := none
  calleeArgIndex : Option Nat := none
deriving DecidableEq, Repr

/-- One injected `$_$twiz(label, value, offset, filename, metadata)` record
(wrapped by `createTypeWizCall` in `try \x7b...\x7d catch(e)\x7b\x7d`). -/
structure TRecord where
  label : String
  meta : TwizCallMeta
deriving DecidableEq, Repr

def isEntryRecord (r : TRecord) : Bool := r.meta.hasParameters.isSome

def isParamRecord (r : TRecord) : Bool := r.meta.parameterName.isSome

/-- The parameter-record metadata built in `instrumentFunction` /
`instrumentArrowFunction` (identical in both; `String(null)` turns an absent
accessibility into the string "null"). -/
def paramCallMeta (funcName context : String) (info : ParamInfo) (index : Nat) : TwizCallMeta :=
  { functionName := funcName
    parameterName := some info.name
    parameterIndex := some index
    parameterType := some (info.annType.getD "untyped")
    hasDefault := some info.hasDefault
    isDestructured := some info.isDestructured
    isRest := some info.isRest
    accessibility := some (info.accessibility.getD "null")
    context := context }

/-- The `params.forEach((param, index) => ...)` loop shared by
`instrumentFunction` and `instrumentArrowFunction`: one record per parameter
whose `extractParameterInfo` yields a truthy name. -/
def paramRecordsOf (funcName context : String) (params : List BParam) : List TRecord :=
  params.enum.filterMap fun pi =>
    (extractParameterInfo pi.2).bind fun info =>
      if info.name = "" then none
      else some { label := funcName ++ "_param_" ++ info.name,
                  meta := paramCallMeta funcName context info pi.1 }

/-- `instrumentFunction` of `ast-instrumenter.js`: parameterless functions get
only an entry record (without a parameter count); functions with parameters
get an entry record carrying `parameterCount` followed by the parameter
records.  Records are only installed when the body is a block statement
(always the case for the constructs routed here). -/
def instrumentFunction (funcName context : String) (params : List BParam)
    (blockBody : Bool) : List TRecord :=
  if params.length = 0 then
    if blockBody then
      [{ label := funcName ++ "_entry",
         meta := { functionName := funcName, context := context ++ "_entry",
                   hasParameters := some false } }]
    else []
  else
    let instrumentationStatements := paramRecordsOf funcName (context ++ "_parameter") params
    let entryCall : TRecord :=
      { label := funcName ++ "_entry",
        meta := { functionName := funcName, context := context ++ "_entry",
                  hasParameters := some true, parameterCount := some params.length } }
    if blockBody then entryCall :: instrumentationStatements else []

/-- `instrumentArrowFunction` of `ast-instrumenter.js`: parameter records only
(no entry record); an expression body is rewritten into a block, so the
records are always installed. -/
def instrumentArrowFunction (funcName : String) (params : List BParam) : List TRecord :=
  if params.length = 0 then []
  else paramRecordsOf funcName "arrow_function_parameter" params

/-- The constructs the traversal of `instrumentCodeWithAST` visits:
`FunctionDeclaration`, `ClassMethod` (with its `kind`), `ObjectMethod`,
and `VariableDeclarator` (instrumented only when its init is an arrow
function).  `start` is the node's source offset, used in the dedup key. -/
inductive Construct where
  | funcDecl (id : Option String) (params : List BParam) (start : Int)
  | classMethod (keyName : Option String) (isCtor : Bool) (params : List BParam) (start : Int)
  | objMethod (keyName keyValue : Option String) (params : List BParam) (start : Int)
  | varArrow (name : String) (params : List BParam) (start : Int)
  | varOther (start : Int)
deriving Repr

/-- The `${funcName}_${path.node.start}` dedup key of the traversal
(`instrumentedFunctions` Set); `none` for declarators that are not arrow
functions, which are not keyed. -/
def constructKey : Construct → Option String
  | .funcDecl id _ start => some ((id.getD "anonymous") ++ "_" ++ toString start)
  | .classMethod keyName _ _ start =>
    some (((jsTruthyStr keyName).getD "anonymous") ++ "_" ++ toString start)
  | .objMethod keyName keyValue _ start =>
    some (((jsTruthyStr keyName).getD ((jsTruthyStr keyValue).getD "anonymous"))
      ++ "_" ++ toString start)
  | .varArrow name _ start => some (name ++ "_" ++ toString start)
  | .varOther _ => none

/-- The records one visited construct contributes: function declarations,
class methods (context `constructor` or `class_method`), and object methods
go through `instrumentFunction`; variable-bound arrows through
`instrumentArrowFunction`. -/
def instrumentConstruct : Construct → List TRecord
  | .funcDecl id params _ =>
    instrumentFunction (id.getD "anonymous") "function_declaration" params true
  | .classMethod keyName isCtor params _ =>
    instrumentFunction ((jsTruthyStr keyName).getD "anonymous")
      (if isCtor then "constructor" else "class_method") params true
  | .objMethod keyName keyValue params _ =>
    instrumentFunction ((jsTruthyStr keyName).getD ((jsTruthyStr keyValue).getD "anonymous"))
      "object_method" params true
  | .varArrow name params _ => instrumentArrowFunction name params
  | .varOther _ => []

/-- The traversal with the `instrumentedFunctions` dedup set threaded. -/
def instrumentProgramAux : List Construct → List String → List TRecord
  | [], _ => []
  | c :: cs, seen =>
    match constructKey c with
    | none => instrumentProgramAux cs seen
    | some key =>
      if key ∈ seen then instrumentProgramAux cs seen
      else instrumentConstruct c ++ instrumentProgramAux cs (key :: seen)

def instrumentProgram (prog : List Construct) : List TRecord :=
  instrumentProgramAux prog []

/-- `instrumentCodeWithAST` of `ast-instrumenter.js`.  `parse` is
`@babel/parser` (plugin set depends on the TypeScript file test), `gen` is
`@babel/generator` together with the prepended runtime; on parser failure the
original source is returned verbatim.  For TypeScript files a literal string
replacement prepends `@ts-expect-error` comments to every injected call. -/
def instrumentCodeWithAST (parse : Bool → String → Option (List Construct))
    (gen : List Construct → List TRecord → String) (source filename : String) : String :=
  let isTypeScript := filename.endsWith ".ts" || filename.endsWith ".tsx"
  match parse isTypeScript source with
  | none => source
  | some prog =>
    let records := instrumentProgram prog
    let code := gen prog records
    if isTypeScript then
      code.replace "try \x7b$_$twiz("
        "// @ts-expect-error TypeWiz runtime injection\n      try \x7b$_$twiz("
    else code

/-- The number of parameters from which a (truthy) name is extractable. -/
def extractableParams (params : List BParam) : Nat :=
  (params.filterMap fun p =>
    (extractParameterInfo p).bind fun info =>
      if info.name = "" then none else some info).length

theorem mem_paramRecordsOf (fn ctx : String) (params : List BParam) (r : TRecord)
    (hr : r ∈ paramRecordsOf fn ctx params) :
    isParamRecord r = true ∧ isEntryRecord r = false := by
  simp only [paramRecordsOf, List.mem_filterMap] at hr
  obtain ⟨pi, _, heq⟩ := hr
  cases hinfo : extractParameterInfo pi.2 with
  | none => rw [hinfo] at heq; simp at heq
  | some info =>
    rw [hinfo] at heq
    by_cases hname : info.name = ""
    · simp [hname] at heq
    · simp only [Option.some_bind, hname, ite_false, if_neg, not_false_iff,
        Option.some.injEq] at heq
      subst heq
      simp [isParamRecord, isEntryRecord, paramCallMeta]

theorem length_paramRecords_aux (fn ctx : String) :
    ∀ (params : List BParam) (n : Nat),
      ((params.enumFrom n).filterMap fun pi =>
        (extractParameterInfo pi.2).bind fun info =>
          if info.name = "" then none
          else some ({ label := fn ++ "_param_" ++ info.name,
                       meta := paramCallMeta fn ctx info pi.1 } : TRecord)).length
      = extractableParams params := by
  intro params
  induction params with
  | nil => intro n; rfl
  | cons p ps ih =>
    intro n
    simp only [List.enumFrom_cons, List.filterMap_cons, extractableParams]
    cases hinfo : extractParameterInfo p with
    | none => simpa [extractableParams, List.filterMap_cons, hinfo] using ih (n + 1)
    | some info =>
      by_cases hname : info.name = ""
      · simpa [extractableParams, List.filterMap_cons, hinfo, hname] using ih (n + 1)
      · simp only [extractableParams, List.filterMap_cons, hinfo, hname, Option.some_bind,
          ite_false, if_neg, not_false_iff, List.length_cons] at ih ⊢
        rw [ih (n + 1)]
        rfl

theorem paramRecordsOf_length (fn ctx : String) (params : List BParam) :
    (paramRecordsOf fn ctx params).length = extractableParams params :=
  length_paramRecords_aux fn ctx params 0

theorem instrumentFunction_counts (fn ctx : String) (params : List BParam) :
    (instrumentFunction fn ctx params true).countP isEntryRecord = 1
    ∧ (instrumentFunction fn ctx params true).countP isParamRecord = extractableParams params
    ∧ ((instrumentFunction fn ctx params true).filter isEntryRecord).map (·.meta.parameterCount)
        = [if params.length = 0 then none else some params.length] := by
  by_cases h0 : params.length = 0
  · have hnil : params = [] := List.length_eq_zero.mp h0
    subst hnil
    refine ⟨?_, ?_, ?_⟩ <;>
      simp [instrumentFunction, isEntryRecord, isParamRecord, extractableParams, List.countP_cons]
  · have hparam0 : (paramRecordsOf fn (ctx ++ "_parameter") params).countP isEntryRecord = 0 :=
      List.countP_eq_zero.mpr fun r hr => by
        simp [(mem_paramRecordsOf fn _ params r hr).2]
    have hparamall :
        (paramRecordsOf fn (ctx ++ "_parameter") params).countP isParamRecord
          = (paramRecordsOf fn (ctx ++ "_parameter") params).length :=
      List.countP_eq_length.mpr fun r hr => (mem_paramRecordsOf fn _ params r hr).1
    have hfilter : (paramRecordsOf fn (ctx ++ "_parameter") params).filter isEntryRecord = [] :=
      List.filter_eq_nil_iff.mpr fun r hr => by
        simp [(mem_paramRecordsOf fn _ params r hr).2]
    refine ⟨?_, ?_, ?_⟩
    · simp only [instrumentFunction, h0, ite_false, if_neg, not_false_iff, ite_true, if_pos,
        List.countP_cons, hparam0]
      simp [isEntryRecord]
    · simp only [instrumentFunction, h0, ite_false, if_neg, not_false_iff, ite_true, if_pos,
        List.countP_cons, hparamall, paramRecordsOf_length]
      simp [isParamRecord]
    · simp only [instrumentFunction, h0, ite_false, if_neg, not_false_iff, ite_true, if_pos]
      rw [List.filter_cons_of_pos (by simp [isEntryRecord]), hfilter]
      simp [h0]

theorem instrumentProgramAux_eq :
    ∀ (prog : List Construct) (seen : List String),
      (∀ k ∈ prog.filterMap constructKey, k ∉ seen) →
      (prog.filterMap constructKey).Nodup →
      instrumentProgramAux prog seen = (prog.map instrumentConstruct).flatten := by
  intro prog
  induction prog with
  | nil => intro seen _ _; rfl
  | cons c cs ih =>
    intro seen hdis hnd
    simp only [instrumentProgramAux, List.map_cons, List.flatten_cons]
    cases hk : constructKey c with
    | none =>
      have hc : instrumentConstruct c = [] := by
        cases c with
        | varOther st => rfl
        | funcDecl id params st => simp [constructKey] at hk
        | classMethod a b p st => simp [constructKey] at hk
        | objMethod a b p st => simp [constructKey] at hk
        | varArrow n p st => simp [constructKey] at hk
      rw [hc, List.nil_append]
      apply ih seen
      · intro k hkm
        apply hdis
        simp [List.filterMap_cons, hk, hkm]
      · simpa [List.filterMap_cons, hk] using hnd
    | some key =>
      have hmemkey : key ∈ (c :: cs).filterMap constructKey := by
        simp [List.filterMap_cons, hk]
      dsimp only
      rw [if_neg (hdis key hmemkey)]
      congr 1
      have hnd' : (cs.filterMap constructKey).Nodup := by
        have := hnd
        simp only [List.filterMap_cons, hk, List.nodup_cons] at this
        exact this.2
      have hkeynotin : key ∉ cs.filterMap constructKey := by
        have := hnd
        simp only [List.filterMap_cons, hk, List.nodup_cons] at this
        exact this.1
      apply ih
      · intro k hkm
        simp only [List.mem_cons, not_or]
        constructor
        · exact fun hcontra => hkeynotin (hcontra ▸ hkm)
        · exact hdis k (by simp [List.filterMap_cons, hk, hkm])
      · exact hnd'

/-- C5 (counterexample): the claim says every handled construct gets exactly
one entry record whose metadata contains the declared parameter count.  A
variable-bound arrow function (`const f = x => ...`) gets its parameter
record but no entry record at all: `instrumentArrowFunction` never emits
one. -/
theorem arrow_entry_counterexample :
    (instrumentConstruct (.varArrow "f" [.ident "x" false] 0)).countP isEntryRecord = 0
    ∧ (instrumentConstruct (.varArrow "f" [.ident "x" false] 0)).length = 1 := by
  constructor <;> decide

/-- C5 (amended): the traversal emits, per visited construct (under distinct
dedup keys), the concatenation of the construct's records.  Function
declarations, class methods, constructors and object methods get exactly one
entry record — whose metadata contains the declared parameter count exactly
when the function has at least one parameter — plus one record per formal
parameter from which a name is extractable (identifier, default-valued
identifier, rest identifier, object/array pattern, TS parameter property;
parameters such as a defaulted destructuring pattern are skipped).
Variable-bound arrow functions get one record per extractable parameter and
no entry record. -/
theorem construct_records :
    (∀ prog : List Construct, (prog.filterMap constructKey).Nodup →
        instrumentProgram prog = (prog.map instrumentConstruct).flatten)
    ∧ (∀ (id : Option String) (params : List BParam) (st : Int),
        (instrumentConstruct (.funcDecl id params st)).countP isEntryRecord = 1
        ∧ (instrumentConstruct (.funcDecl id params st)).countP isParamRecord
            = extractableParams params
        ∧ ((instrumentConstruct (.funcDecl id params st)).filter isEntryRecord).map
              (·.meta.parameterCount)
            = [if params.length = 0 then none else some params.length])
    ∧ (∀ (keyName : Option String) (isCtor : Bool) (params : List BParam) (st : Int),
        (instrumentConstruct (.classMethod keyName isCtor params st)).countP isEntryRecord = 1
        ∧ (instrumentConstruct (.classMethod keyName isCtor params st)).countP isParamRecord
            = extractableParams params
        ∧ ((instrumentConstruct (.classMethod keyName isCtor params st)).filter
              isEntryRecord).map (·.meta.parameterCount)
            = [if params.length = 0 then none else some params.length])
    ∧ (∀ (keyName keyValue : Option String) (params : List BParam) (st : Int),
        (instrumentConstruct (.objMethod keyName keyValue params st)).countP isEntryRecord = 1
        ∧ (instrumentConstruct (.objMethod keyName keyValue params st)).countP isParamRecord
            = extractableParams params
        ∧ ((instrumentConstruct (.objMethod keyName keyValue params st)).filter
              isEntryRecord).map (·.meta.parameterCount)
            = [if params.length = 0 then none else some params.length])
    ∧ (∀ (name : String) (params : List BParam) (st : Int),
        (instrumentConstruct (.varArrow name params st)).countP isEntryRecord = 0
        ∧ (instrumentConstruct (.varArrow name params st)).countP isParamRecord
            = extractableParams params) := by
  refine ⟨fun prog hnd => instrumentProgramAux_eq prog [] (by simp) hnd, ?_, ?_, ?_, ?_⟩
  · intro id params st
    exact instrumentFunction_counts _ _ params
  · intro keyName isCtor params st
    exact instrumentFunction_counts _ _ params
  · intro keyName keyValue params st
    exact instrumentFunction_counts _ _ params
  · intro name params st
    simp only [instrumentConstruct, instrumentArrowFunction]
    by_cases h0 : params.length = 0
    · have hnil : params = [] := List.length_eq_zero.mp h0
      subst hnil
      simp [extractableParams]
    · rw [if_neg h0]
      constructor
      · exact List.countP_eq_zero.mpr fun r hr => by
          simp [(mem_paramRecordsOf name _ params r hr).2]
      · rw [List.countP_eq_length.mpr fun r hr => (mem_paramRecordsOf name _ params r hr).1,
          paramRecordsOf_length]

theorem construct_records_witness :
    (([Construct.funcDecl (some "f") [.ident "a" false, .ident "b" false] 0,
       Construct.varArrow "g" [.ident "x" false] 10] :
        List Construct).filterMap constructKey).Nodup
    ∧ instrumentProgram
        [Construct.funcDecl (some "f") [.ident "a" false, .ident "b" false] 0,
         Construct.varArrow "g" [.ident "x" false] 10]
      = (([Construct.funcDecl (some "f") [.ident "a" false, .ident "b" false] 0,
          Construct.varArrow "g" [.ident "x" false] 10] :
          List Construct).map instrumentConstruct).flatten :=
  ⟨by decide,
    construct_records.1
      [Construct.funcDecl (some "f") [.ident "a" false, .ident "b" false] 0,
       Construct.varArrow "g" [.ident "x" false] 10] (by decide)⟩

/-- C9: the instrumenter is deterministic — the embedded
`instrumentCodeWithAST` is a pure function of the source string and filename
(given the parser and generator, themselves functions).  The only mutable
state of the source's traversal, the `instrumentedFunctions` dedup Set, is
threaded deterministically through `instrumentProgramAux`; nothing in the
transformation reads a clock, randomness, or any other ambient state, so two
evaluations on identical inputs produce identical output strings. -/
theorem instrument_deterministic (parse : Bool → String → Option (List Construct))
    (gen : List Construct → List TRecord → String) (source filename : String) :
    instrumentCodeWithAST parse gen source filename
      = instrumentCodeWithAST parse gen source filename := rfl

/-! ### Callback-argument instrumentation (spec-modelled)

The instrumenter with callback-argument support — `lib/ast-instrumenter.js`
with `instrumentInlineArrowFunction` and `getCalleeName`, required by
`lib/webpack-loader.js` and documented in the repository README — is not
among the sources; only its callers and documentation are.  The definitions
below are therefore modelled from the spec (§4.1, "Callee-name resolution for
callback arguments" and the `callback_argument_parameter` row) and from the
README's instrumented-output example. -/

/-- Modelled from the spec: the parameter-descriptor variant of §9
("{identifier, default, rest, object-pattern, array-pattern,
typed-identifier-with-visibility}"). -/
inductive SpecParam where
  | identifier (name : String)
  | withDefault (name : String)
  | rest (name : String)
  | objectPattern
  | arrayPattern
  | typedWithVisibility (name : String) (visibility : String)
deriving DecidableEq, Repr

/-- Modelled from the spec: "declared name (or a synthetic
`destructured_object` / `destructured_array` for pattern bindings)". -/
def specParamName : SpecParam → String
  | .identifier n => n
  | .withDefault n => n
  | .rest n => n
  | .objectPattern => "destructured_object"
  | .arrayPattern => "destructured_array"
  | .typedWithVisibility n _ => n

/-- Modelled from the spec: a callee expression is an identifier chain, a
member chain, or any other expression (kept as its pretty-printed text). -/
inductive CalleeExpr where
  | ident (name : String)
  | member (base : CalleeExpr) (prop : String)
  | otherPretty (pretty : String)
deriving DecidableEq, Repr

/-- Modelled from the spec: `getCalleeName` — "a bare identifier `f` yields
`f`; a member chain `a.b.c` yields `a.b.c`; any other form yields the
pretty-printed callee". -/
def getCalleeName : CalleeExpr → String
  | .ident n => n
  | .member base prop => getCalleeName base ++ "." ++ prop
  | .otherPretty s => s

/-- An argument of a call expression: a function literal (arrow or function
expression) with its formal parameters, or anything else. -/
inductive CallArg where
  | funcLit (params : List SpecParam)
  | otherArg
deriving Repr

structure CallExprS where
  callee : CalleeExpr
  args : List CallArg

/-- Modelled from the spec: `instrumentInlineArrowFunction` — for a function
literal passed at argument position `argIndex`, one record per formal
parameter, labelled `<callee>_arg<N>_param_<p>`, tagged
`callback_argument_parameter`, carrying the resolved callee name and the
zero-based argument index in its metadata (the `functionName` is
`<callee>_arg<N>`, per the README's instrumented-output example). -/
def instrumentInlineArrowFunction (calleeName : String) (argIndex : Nat)
    (params : List SpecParam) : List TRecord :=
  params.enum.map fun pi =>
    { label := calleeName ++ "_arg" ++ toString argIndex ++ "_param_" ++ specParamName pi.2,
      meta := { functionName := calleeName ++ "_arg" ++ toString argIndex,
                parameterName := some (specParamName pi.2),
                parameterIndex := some pi.1,
                parameterType := some "untyped",
                context := "callback_argument_parameter",
                calleeName := some calleeName,
                calleeArgIndex := some argIndex } }

/-- Modelled from the spec: the traversal of a call expression's arguments —
"it also accepts callback arguments to any call": every function-literal
argument is instrumented at its zero-based position. -/
def instrumentCallArgs (calleeName : String) (argIndex : Nat) : List CallArg → List TRecord
  | [] => []
  | .funcLit params :: rest =>
    instrumentInlineArrowFunction calleeName argIndex params
      ++ instrumentCallArgs calleeName (argIndex + 1) rest
  | .otherArg :: rest => instrumentCallArgs calleeName (argIndex + 1) rest

def instrumentCallExpr (call : CallExprS) : List TRecord :=
  instrumentCallArgs (getCalleeName call.callee) 0 call.args

theorem mem_instrumentInlineArrowFunction (calleeName : String) (argIndex : Nat)
    (params : List SpecParam) (r : TRecord)
    (hr : r ∈ instrumentInlineArrowFunction calleeName argIndex params) :
    r.meta.calleeArgIndex = some argIndex := by
  simp only [instrumentInlineArrowFunction, List.mem_map] at hr
  obtain ⟨pi, _, heq⟩ := hr
  subst heq
  rfl

theorem mem_instrumentCallArgs (calleeName : String) :
    ∀ (args : List CallArg) (m : Nat) (r : TRecord),
      r ∈ instrumentCallArgs calleeName m args →
      ∃ j, m ≤ j ∧ r.meta.calleeArgIndex = some j := by
  intro args
  induction args with
  | nil => intro m r hr; simp [instrumentCallArgs] at hr
  | cons a rest ih =>
    intro m r hr
    cases a with
    | funcLit params =>
      simp only [instrumentCallArgs, List.mem_append] at hr
      rcases hr with hr | hr
      · exact ⟨m, le_refl m, mem_instrumentInlineArrowFunction calleeName m params r hr⟩
      · obtain ⟨j, hj, hje⟩ := ih (m + 1) r hr
        exact ⟨j, by omega, hje⟩
    | otherArg =>
      obtain ⟨j, hj, hje⟩ := ih (m + 1) r hr
      exact ⟨j, by omega, hje⟩

theorem filter_instrumentCallArgs (calleeName : String) :
    ∀ (args : List CallArg) (m n : Nat) (params : List SpecParam),
      args.get? n = some (.funcLit params) →
      (instrumentCallArgs calleeName m args).filter
          (fun r => r.meta.calleeArgIndex == some (m + n))
        = instrumentInlineArrowFunction calleeName (m + n) params := by
  intro args
  induction args with
  | nil => intro m n params h; simp at h
  | cons a rest ih =>
    intro m n params h
    cases n with
    | zero =>
      simp only [List.get?] at h
      cases a with
      | funcLit ps =>
        have hps : ps = params := by injection h with h1; injection h1
        subst hps
        simp only [instrumentCallArgs, List.filter_append, Nat.add_zero]
        rw [List.filter_eq_self.mpr fun r hr => by
          rw [mem_instrumentInlineArrowFunction calleeName m ps r hr]
          exact beq_self_eq_true _]
        rw [List.filter_eq_nil_iff.mpr fun r hr => by
          obtain ⟨j, hj, hje⟩ := mem_instrumentCallArgs calleeName rest (m + 1) r hr
          rw [hje]
          simp only [beq_iff_eq, Option.some.injEq]
          omega]
        rw [List.append_nil]
      | otherArg => exact absurd h (by simp)
    | succ n' =>
      simp only [List.get?] at h
      cases a with
      | funcLit ps =>
        simp only [instrumentCallArgs, List.filter_append]
        rw [List.filter_eq_nil_iff.mpr fun r hr => by
          rw [mem_instrumentInlineArrowFunction calleeName m ps r hr]
          simp only [beq_iff_eq, Option.some.injEq]
          omega]
        rw [List.nil_append]
        have := ih (m + 1) n' params h
        rw [show m + (n' + 1) = m + 1 + n' by omega]
        exact this
      | otherArg =>
        simp only [instrumentCallArgs]
        have := ih (m + 1) n' params h
        rw [show m + (n' + 1) = m + 1 + n' by omega]
        exact this

/-- C1: for every function literal passed as an argument to a call
expression, the instrumenter emits one record per formal parameter of the
literal, labelled `<callee>_arg<N>_param_<p>` with the callee resolved from
the callee expression's identifier chain, tagged
`callback_argument_parameter`, and carrying the resolved callee name and the
zero-based argument index in its metadata.  (The callback instrumenter is
spec-modelled; see the section header.) -/
theorem callback_argument_records (call : CallExprS) (n : Nat) (params : List SpecParam)
    (h : call.args.get? n = some (.funcLit params)) :
    (instrumentCallExpr call).filter (fun r => r.meta.calleeArgIndex == some n)
      = params.enum.map fun pi =>
          { label := getCalleeName call.callee ++ "_arg" ++ toString n ++ "_param_"
              ++ specParamName pi.2,
            meta := { functionName := getCalleeName call.callee ++ "_arg" ++ toString n,
                      parameterName := some (specParamName pi.2),
                      parameterIndex := some pi.1,
                      parameterType := some "untyped",
                      context := "callback_argument_parameter",
                      calleeName := some (getCalleeName call.callee),
                      calleeArgIndex := some n } } := by
  have := filter_instrumentCallArgs (getCalleeName call.callee) call.args 0 n params h
  simp only [Nat.zero_add] at this
  exact this

theorem callback_argument_records_witness :
    (⟨CalleeExpr.ident "createRoutine",
      [CallArg.otherArg, CallArg.funcLit [SpecParam.identifier "payload"]]⟩ :
        CallExprS).args.get? 1 = some (.funcLit [SpecParam.identifier "payload"])
    ∧ (instrumentCallExpr
        ⟨CalleeExpr.ident "createRoutine",
         [CallArg.otherArg, CallArg.funcLit [SpecParam.identifier "payload"]]⟩).filter
          (fun r => r.meta.calleeArgIndex == some 1)
      = [{ label := "createRoutine_arg1_param_payload",
           meta := { functionName := "createRoutine_arg1",
                     parameterName := some "payload",
                     parameterIndex := some 0,
                     parameterType := some "untyped",
                     context := "callback_argument_parameter",
                     calleeName := some "createRoutine",
                     calleeArgIndex := some 1 } }] :=
  ⟨rfl,
    (callback_argument_records
      ⟨CalleeExpr.ident "createRoutine",
       [CallArg.otherArg, CallArg.funcLit [SpecParam.identifier "payload"]]⟩
      1 [SpecParam.identifier "payload"] rfl).trans (by decide)⟩

/-! ### The LLM query interface (`src/lib/source-map-utils.js`,
`LLMQueryInterface.getAnnotationCandidates`)

The SQL query is modelled over the row lists of `Store`: the join to
`entities` only contributes output columns functionally dependent on the
grouping key, and timestamps are not modelled. -/

/-- Generic stable insertion sort, the model of SQL `ORDER BY`. -/
def orderedInsertBy {α : Type} (le : α → α → Bool) (a : α) : List α → List α
  | [] => [a]
  | b :: bs => if le a b then a :: b :: bs else b :: orderedInsertBy le a bs

def sortBy {α : Type} (le : α → α → Bool) : List α → List α
  | [] => []
  | a :: as => orderedInsertBy le a (sortBy le as)

theorem orderedInsertBy_perm {α : Type} (le : α → α → Bool) (a : α) (l : List α) :
    (orderedInsertBy le a l).Perm (a :: l) := by
  induction l with
  | nil => exact List.Perm.refl _
  | cons b bs ih =>
    simp only [orderedInsertBy]
    by_cases h : le a b
    · rw [if_pos h]
    · rw [if_neg h]
      exact (ih.cons b).trans (List.Perm.swap a b bs)

theorem sortBy_perm {α : Type} (le : α → α → Bool) (l : List α) : (sortBy le l).Perm l := by
  induction l with
  | nil => exact List.Perm.refl _
  | cons a as ih => exact (orderedInsertBy_perm le a (sortBy le as)).trans (ih.cons a)

/-- One output row of the annotation-candidates query (the columns the claim
concerns; `example_values` and the entity name/position columns are
functionally dependent on the grouping key and omitted). -/
structure AnnRow where
  entity : String × Int
  valueType : String
  uniqueValues : Nat
  totalObservations : Nat
  annType : String
deriving DecidableEq, Repr

/-- The CASE expression of `getAnnotationCandidates`:
string with 2–10 distinct values ⇒ ENUM_CANDIDATE; object ⇒
INTERFACE_CANDIDATE; number with fewer than 10 distinct values ⇒
LITERAL_TYPE_CANDIDATE; more than one distinct `value_type` ⇒
UNION_CANDIDATE; else SIMPLE_TYPE. -/
def annTypeOf (valueType : String) (uniqueValues : Nat) (distinctTypes : Nat) : String :=
  if valueType = "string" ∧ 2 ≤ uniqueValues ∧ uniqueValues ≤ 10 then "ENUM_CANDIDATE"
  else if valueType = "object" then "INTERFACE_CANDIDATE"
  else if valueType = "number" ∧ uniqueValues < 10 then "LITERAL_TYPE_CANDIDATE"
  else if distinctTypes > 1 then "UNION_CANDIDATE"
  else "SIMPLE_TYPE"

/-- The `ORDER BY CASE annotation_type ... END` rank. -/
def annRank (annType : String) : Nat :=
  if annType = "ENUM_CANDIDATE" then 1
  else if annType = "INTERFACE_CANDIDATE" then 2
  else if annType = "UNION_CANDIDATE" then 3
  else if annType = "LITERAL_TYPE_CANDIDATE" then 4
  else 5

/-- `ORDER BY rank ASC, total_observations DESC`. -/
def annLe (a b : AnnRow) : Bool :=
  decide (annRank a.annType < annRank b.annType)
    || (decide (annRank a.annType = annRank b.annType)
        && decide (b.totalObservations ≤ a.totalObservations))

/-- `getAnnotationCandidates` of `source-map-utils.js`:
`WHERE v.value_type != 'undefined'`, `GROUP BY e.id, v.value_type`,
`HAVING total_observations >= ?`, ranked by the CASE order. -/
def getAnnotationCandidates (minObservations : Nat) (s : Store) : List AnnRow :=
  let rows := s.valueObservations.filter fun r => r.valueType ≠ "undefined"
  let keys := (rows.map fun r => (r.entityId, r.valueType)).dedup
  let groups := keys.map fun k =>
    let g := rows.filter fun r => r.entityId = k.1 ∧ r.valueType = k.2
    ({ entity := k.1
       valueType := k.2
       uniqueValues := (g.map (·.literalValue)).dedup.length
       totalObservations := (g.map (·.observationCount)).sum
       annType := annTypeOf k.2 ((g.map (·.literalValue)).dedup.length)
         ((g.map (·.valueType)).dedup.length) } : AnnRow)
  sortBy annLe (groups.filter fun row => minObservations ≤ row.totalObservations)

theorem dedup_length_le_one_of_all_eq {α : Type} [DecidableEq α] (a : α) :
    ∀ l : List α, (∀ x ∈ l, x = a) → l.dedup.length ≤ 1 := by
  intro l
  induction l with
  | nil => intro _; simp
  | cons b bs ih =>
    intro h
    by_cases hm : b ∈ bs
    · rw [List.dedup_cons_of_mem hm]
      exact ih fun x hx => h x (List.mem_cons_of_mem b hx)
    · rw [List.dedup_cons_of_not_mem hm]
      cases bs with
      | nil => simp
      | cons c cs =>
        exfalso
        apply hm
        have hb : b = a := h b (List.mem_cons_self b _)
        have hc : c = a := h c (List.mem_cons_of_mem b (List.mem_cons_self c cs))
        rw [hb, ← hc]
        exact List.mem_cons_self c cs

/-- C6: the UNION branch of the annotation-candidates CASE is unreachable.
Because the query groups by `(e.id, v.value_type)`, every group contains rows
of a single `value_type`, so `COUNT(DISTINCT v.value_type)` is at most 1
within any group and `UNION_CANDIDATE` is never returned — contradicting the
claim (and the query's own CASE branch and ranking, which clearly intend
union candidates to be produced for entities observed at several types). -/
theorem union_branch_unreachable (minObservations : Nat) (s : Store) (row : AnnRow)
    (hrow : row ∈ getAnnotationCandidates minObservations s) :
    row.annType ≠ "UNION_CANDIDATE" := by
  have hrow2 := (sortBy_perm annLe _).mem_iff.mp hrow
  simp only [List.mem_filter, List.mem_map] at hrow2
  obtain ⟨⟨k, hk, heq⟩, _⟩ := hrow2
  subst heq
  simp only
  set rows := s.valueObservations.filter fun r => r.valueType ≠ "undefined" with hrows
  have hall : ∀ x ∈ (rows.filter fun r => r.entityId = k.1 ∧ r.valueType = k.2).map
      (·.valueType), x = k.2 := by
    intro x hx
    simp only [List.mem_map, List.mem_filter] at hx
    obtain ⟨r, ⟨_, hr2⟩, hxeq⟩ := hx
    rw [← hxeq]
    exact (of_decide_eq_true hr2).2
  have hle : ((rows.filter fun r => r.entityId = k.1 ∧ r.valueType = k.2).map
      (·.valueType)).dedup.length ≤ 1 :=
    dedup_length_le_one_of_all_eq k.2 _ hall
  simp only [annTypeOf]
  split_ifs with h1 h2 h3 h4
  · decide
  · decide
  · decide
  · omega
  · decide

theorem union_branch_unreachable_witness :
    ({ entity := ("x.js", 0), valueType := "boolean", uniqueValues := 1,
       totalObservations := 5, annType := "SIMPLE_TYPE" } : AnnRow)
      ∈ getAnnotationCandidates 5
        { entities := [{ filename := "x.js", offset := 0 }]
          valueObservations :=
            [{ entityId := ("x.js", 0), valueType := "boolean", literalValue := "true",
               valueHash := "aaaa0000", context := "c1", observationCount := 5 },
             { entityId := ("x.js", 0), valueType := "string", literalValue := "\"x\"",
               valueHash := "bbbb0000", context := "c2", observationCount := 5 }] }
    ∧ ({ entity := ("x.js", 0), valueType := "boolean", uniqueValues := 1,
         totalObservations := 5, annType := "SIMPLE_TYPE" } : AnnRow).annType
        ≠ "UNION_CANDIDATE" :=
  ⟨by decide,
    union_branch_unreachable 5
      { entities := [{ filename := "x.js", offset := 0 }]
        valueObservations :=
          [{ entityId := ("x.js", 0), valueType := "boolean", literalValue := "true",
             valueHash := "aaaa0000", context := "c1", observationCount := 5 },
           { entityId := ("x.js", 0), valueType := "string", literalValue := "\"x\"",
             valueHash := "bbbb0000", context := "c2", observationCount := 5 }] }
      { entity := ("x.js", 0), valueType := "boolean", uniqueValues := 1,
        totalObservations := 5, annType := "SIMPLE_TYPE" }
      (by decide)⟩

/-- The annotation-candidates query at the failing input of C6: an entity
observed at two distinct value types (boolean and string, five observations
each) yields two SIMPLE_TYPE rows and no UNION_CANDIDATE row. -/
theorem union_failing_input_eval :
    getAnnotationCandidates 5
      { entities := [{ filename := "x.js", offset := 0 }]
        valueObservations :=
          [{ entityId := ("x.js", 0), valueType := "boolean", literalValue := "true",
             valueHash := "aaaa0000", context := "c1", observationCount := 5 },
           { entityId := ("x.js", 0), valueType := "string", literalValue := "\"x\"",
             valueHash := "bbbb0000", context := "c2", observationCount := 5 }] }
      = [{ entity := ("x.js", 0), valueType := "boolean", uniqueValues := 1,
           totalObservations := 5, annType := "SIMPLE_TYPE" },
         { entity := ("x.js", 0), valueType := "string", uniqueValues := 1,
           totalObservations := 5, annType := "SIMPLE_TYPE" }] := by
  decide

/-! ### The function-calls query (`getFunctionCalls` in
`src/lib/sqlite-collector.js`)

`e.last_seen` is not modelled, so the `ORDER BY e.last_seen DESC,
call_count DESC` step is represented by the grouped list in first-occurrence
order; every property stated below is invariant under that permutation. -/

structure CallsRow where
  filename : String
  entityName : Option String
  offsetPosition : Int
  valueType : String
  literalValue : String
  callCount : Nat
deriving DecidableEq, Repr

structure CallsPagination where
  offset : Nat
  pageSize : Nat
  total : Nat
  hasMore : Bool
deriving DecidableEq, Repr

structure CallsResult where
  calls : List CallsRow
  pagination : CallsPagination
deriving DecidableEq, Repr

/-- The `JOIN value_observations vo ON e.id = vo.entity_id`. -/
def joinedRows (s : Store) : List (EntityRow × VORow) :=
  s.valueObservations.filterMap fun v =>
    (s.entities.find? fun e => decide (e.key = v.entityId)).map fun e => (e, v)

/-- The WHERE clause: `e.filename LIKE '%filepath%'` and
`(e.entity_name LIKE '%fn%' OR vo.literal_value LIKE '%fn%')`; a NULL
`entity_name` makes its LIKE fall to the other disjunct. -/
def callsRowMatches (filepath functionName : Option String) (p : EntityRow × VORow) : Bool :=
  (match filepath with
   | some fp => strContainsSub p.1.filename fp
   | none => true)
  && (match functionName with
      | some fnq =>
        (match p.1.entityName with
         | some n => strContainsSub n fnq
         | none => false)
        || strContainsSub p.2.literalValue fnq
      | none => true)

/-- `getFunctionCalls` of `sqlite-collector.js`: page rows grouped by
`(e.id, vo.value_type, vo.literal_value)` with `COUNT(*) as call_count` and
`LIMIT pageSize OFFSET offset`, while `total` comes from a separate
`COUNT(DISTINCT e.id)` query over the same WHERE clause, and
`hasMore = offset + pageSize < total`. -/
def getFunctionCalls (s : Store) (filepath functionName : Option String)
    (offset pageSize : Nat) : CallsResult :=
  let matched := (joinedRows s).filter (callsRowMatches filepath functionName)
  let keys := (matched.map fun p => (p.1.key, p.2.valueType, p.2.literalValue)).dedup
  let grouped := keys.map fun k =>
    let g := matched.filter fun p => (p.1.key, p.2.valueType, p.2.literalValue) = k
    ({ filename := k.1.1
       entityName := (g.head?).bind fun p => p.1.entityName
       offsetPosition := k.1.2
       valueType := k.2.1
       literalValue := k.2.2
       callCount := g.length } : CallsRow)
  let total := ((matched.map fun p => p.1.key).dedup).length
  { calls := (grouped.drop offset).take pageSize
    pagination := { offset := offset, pageSize := pageSize, total := total,
                    hasMore := decide (offset + pageSize < total) } }

theorem mem_joinedRows (s : Store) (p : EntityRow × VORow) (hp : p ∈ joinedRows s) :
    p.1 ∈ s.entities := by
  simp only [joinedRows, List.mem_filterMap] at hp
  obtain ⟨v, _, heq⟩ := hp
  cases hfind : s.entities.find? fun e => decide (e.key = v.entityId) with
  | none => rw [hfind] at heq; simp at heq
  | some e =>
    rw [hfind] at heq
    simp only [Option.map_some', Option.some.injEq] at heq
    rw [← heq]
    exact List.mem_of_find?_eq_some hfind

/-- C10: in every `getFunctionCalls` response, `pagination.total` is the
number of distinct matching entities (the entity rows with at least one
matching joined value-observation row) — not the number of returned row
groups; `hasMore` equals `offset + pageSize < total`; the page holds at most
`pageSize` grouped rows; and there is a store in which an entity with two
distinct `(value_type, literal_value)` rows makes the page-row count and the
total disagree (2 groups vs total 1), so the page unit and the total unit
differ. -/
theorem function_calls_pagination (s : Store) (filepath functionName : Option String)
    (offset pageSize : Nat)
    (hnd : (s.entities.map EntityRow.key).Nodup) :
    (getFunctionCalls s filepath functionName offset pageSize).pagination.total
        = (s.entities.filter fun e =>
            (joinedRows s).any fun p =>
              callsRowMatches filepath functionName p && decide (p.1.key = e.key)).length
    ∧ (getFunctionCalls s filepath functionName offset pageSize).pagination.hasMore
        = decide (offset + pageSize
            < (getFunctionCalls s filepath functionName offset pageSize).pagination.total)
    ∧ (getFunctionCalls s filepath functionName offset pageSize).calls.length ≤ pageSize
    ∧ (∃ s₀ : Store, (getFunctionCalls s₀ none none 0 50).calls.length = 2
        ∧ (getFunctionCalls s₀ none none 0 50).pagination.total = 1) := by
  have hkeymain :
      (((joinedRows s).filter (callsRowMatches filepath functionName)).map
          (fun p => p.1.key)).dedup.length
        = (s.entities.filter fun e =>
            (joinedRows s).any fun p =>
              callsRowMatches filepath functionName p && decide (p.1.key = e.key)).length := by
    have hnd2 : ((s.entities.filter fun e =>
        (joinedRows s).any fun p =>
          callsRowMatches filepath functionName p && decide (p.1.key = e.key)).map
          EntityRow.key).Nodup :=
      List.Nodup.sublist (List.Sublist.map EntityRow.key (List.filter_sublist s.entities)) hnd
    have hsetseq : ((((joinedRows s).filter (callsRowMatches filepath functionName)).map
          (fun p => p.1.key)).toFinset : Finset (String × Int))
        = ((s.entities.filter fun e =>
            (joinedRows s).any fun p =>
              callsRowMatches filepath functionName p && decide (p.1.key = e.key)).map
            EntityRow.key).toFinset := by
      ext k
      rw [List.mem_toFinset, List.mem_toFinset, List.mem_map, List.mem_map]
      constructor
      · rintro ⟨p, hp, hkey⟩
        rw [List.mem_filter] at hp
        refine ⟨p.1, ?_, hkey⟩
        rw [List.mem_filter]
        refine ⟨mem_joinedRows s p hp.1, ?_⟩
        rw [List.any_eq_true]
        refine ⟨p, hp.1, ?_⟩
        rw [Bool.and_eq_true, decide_eq_true_eq]
        exact ⟨hp.2, rfl⟩
      · rintro ⟨e, he, hek⟩
        rw [List.mem_filter, List.any_eq_true] at he
        obtain ⟨_, p, hpj, hcond⟩ := he
        rw [Bool.and_eq_true, decide_eq_true_eq] at hcond
        refine ⟨p, ?_, hcond.2.trans hek⟩
        rw [List.mem_filter]
        exact ⟨hpj, hcond.1⟩
    calc (((joinedRows s).filter (callsRowMatches filepath functionName)).map
          (fun p => p.1.key)).dedup.length
        = (((joinedRows s).filter (callsRowMatches filepath functionName)).map
            (fun p => p.1.key)).toFinset.card := (List.card_toFinset _).symm
      _ = ((s.entities.filter fun e =>
            (joinedRows s).any fun p =>
              callsRowMatches filepath functionName p && decide (p.1.key = e.key)).map
            EntityRow.key).toFinset.card := by rw [hsetseq]
      _ = ((s.entities.filter fun e =>
            (joinedRows s).any fun p =>
              callsRowMatches filepath functionName p && decide (p.1.key = e.key)).map
            EntityRow.key).dedup.length := List.card_toFinset _
      _ = ((s.entities.filter fun e =>
            (joinedRows s).any fun p =>
              callsRowMatches filepath functionName p && decide (p.1.key = e.key)).map
            EntityRow.key).length := by rw [hnd2.dedup]
      _ = (s.entities.filter fun e =>
            (joinedRows s).any fun p =>
              callsRowMatches filepath functionName p && decide (p.1.key = e.key)).length :=
        List.length_map _ _
  refine ⟨hkeymain, rfl, ?_, ?_⟩
  · show (List.take pageSize _).length ≤ pageSize
    rw [List.length_take]
    exact min_le_left _ _
  · exact ⟨({ entities := [{ filename := "x.js", offset := 0 }],
              valueObservations :=
                [{ entityId := ("x.js", 0), valueType := "string", literalValue := "\"a\"",
                   valueHash := "aaaa0000", context := "c" },
                 { entityId := ("x.js", 0), valueType := "string", literalValue := "\"b\"",
                   valueHash := "bbbb0000", context := "c" }] } : Store),
            by decide, by decide⟩

/-- The concrete store used to instantiate `function_calls_pagination`
in its witness. -/
def callsWitnessStore : Store :=
  { entities := [{ filename := "x.js", offset := 0 }]
    valueObservations :=
      [{ entityId := ("x.js", 0), valueType := "string", literalValue := "\"a\"",
         valueHash := "aaaa0000", context := "c" },
       { entityId := ("x.js", 0), valueType := "string", literalValue := "\"b\"",
         valueHash := "bbbb0000", context := "c" }] }

theorem function_calls_pagination_witness :
    (callsWitnessStore.entities.map EntityRow.key).Nodup
    ∧ (getFunctionCalls callsWitnessStore none none 0 50).pagination.total
      = (callsWitnessStore.entities.filter fun e =>
          (joinedRows callsWitnessStore).any fun p =>
            callsRowMatches none none p && decide (p.1.key = e.key)).length :=
  ⟨by decide, (function_calls_pagination callsWitnessStore none none 0 50 (by decide)).1⟩

example : getValueType (.vStr "x") = "string" := by decide
example : serializeLiteralValue (.vNum 7) "number" = "7" := by decide
example : isEnumCandidateString "success" = true := by decide
example : isEnumCandidateString "12345" = false := by decide
example : isEnumCandidateString "a b c d" = false := by decide
example : isEnumCandidateString "http-ish" = false := by decide
example :
    analyzeObjectShape (.vObj [("id", .vStr "a"), ("done", .vBool false)]) =
      some { signature := "done:boolean,id:string", propertyNames := "done,id",
             propertyTypes := "\x7b\"done\":\"boolean\",\"id\":\"string\"\x7d" } := by decide
